import Mathlib

/-
  Verification development for `lib/node-progress.js`.

  Shallow embedding conventions:
  * JS strings are `List Char` (`Str`); `String.prototype.replace` with a
    string pattern (which replaces only the first occurrence) is `jsReplace`.
  * JS numbers are embedded as `ℚ`/`ℤ`/`ℕ` where the source only produces
    finite values, and as `JSNum` (rationals extended with NaN/±Infinity)
    where the source can produce non-finite values (`timeRemaining`,
    `elapsed`'s throughput division).
  * The module-level mutable variables (`bars`, `barInc`, `barLines`) are an
    explicit `Globals` record threaded through every operation; `this`
    (`me`) is the explicit `BarState` record.
  * Side effects on the terminal stream, the lifecycle hooks (which default
    to no-ops) and `console.log` are recorded as an explicit `Event` list.
  * The timers (`setInterval` sampler, `setTimeout` debounce) are modelled
    by explicit firing operations; the set of outstanding debounce timers
    is a list in `Globals` so that "at most one outstanding" is a provable
    property rather than a representation artifact.
  * The clock (`process.hrtime()`) is an explicit `now : ℚ` argument
    (seconds since an arbitrary epoch).
-/

namespace NodeProgress

/-- JS strings as lists of characters. -/
abbrev Str := List Char

def ofStr (s : String) : Str := s.data

/-- `pat` sits at the front of `s` (Boolean prefix test). -/
def leadsWith : Str → Str → Bool
  | [], _ => true
  | _ :: _, [] => false
  | a :: as, b :: bs => a = b && leadsWith as bs

/-- JS `String.prototype.replace(pat, val)` with a string pattern:
replaces only the first occurrence of `pat`; if `pat` does not occur the
string is returned unchanged. -/
def jsReplace (s pat val : Str) : Str :=
  match s with
  | [] => if leadsWith pat [] then val else []
  | c :: rest =>
    if leadsWith pat (c :: rest) then val ++ (c :: rest).drop pat.length
    else c :: jsReplace rest pat val

/-- Decidable occurrence test: does `pat` occur somewhere in `s`? -/
def strHas (pat s : Str) : Bool :=
  (List.range (s.length + 1)).any fun i => leadsWith pat (s.drop i)

/-- JS `Math.round`: round half toward positive infinity. -/
def jsRound (q : ℚ) : ℤ := ⌊q + 1/2⌋

/-- Decimal digit character (`0 ≤ d ≤ 9` in all uses). -/
def digitChar (d : ℕ) : Char := Char.ofNat (48 + d)

/-- Decimal rendering of a natural number, with explicit fuel so the
definition is structurally recursive (fuel `n + 1` always suffices). -/
def natToCharsAux : ℕ → ℕ → Str
  | 0, _ => []
  | _ + 1, 0 => []
  | fuel + 1, n + 1 =>
    natToCharsAux fuel ((n + 1) / 10) ++ [digitChar ((n + 1) % 10)]

/-- JS `String(n)` for a nonnegative integer-valued number. -/
def natToChars (n : ℕ) : Str :=
  if n = 0 then ['0'] else natToCharsAux (n + 1) n

/-- JS `String(i)` for an integer-valued number. -/
def intToStr (i : ℤ) : Str :=
  if i < 0 then '-' :: natToChars i.natAbs else natToChars i.toNat

/-- JS double values as far as this program produces them: finite values
(embedded as rationals), `NaN` and the two infinities. -/
inductive JSNum where
  | num (q : ℚ)
  | nan
  | posInf
  | negInf
deriving DecidableEq, Repr

/-- JS division of two finite numbers (`a / b`), including the IEEE rules
`x / 0 = ±Infinity` for `x ≠ 0` and `0 / 0 = NaN`. -/
def jsDiv (a b : ℚ) : JSNum :=
  if b ≠ 0 then .num (a / b)
  else if 0 < a then .posInf
  else if a < 0 then .negInf
  else .nan

/-- Multiplication by a positive finite constant. -/
def JSNum.mulC : JSNum → ℚ → JSNum
  | .num q, c => .num (q * c)
  | .nan, _ => .nan
  | .posInf, _ => .posInf
  | .negInf, _ => .negInf

/-- Division by a positive finite constant. -/
def JSNum.divC : JSNum → ℚ → JSNum
  | .num q, c => .num (q / c)
  | .nan, _ => .nan
  | .posInf, _ => .posInf
  | .negInf, _ => .negInf

/-- IEEE subtraction (only the cases reachable here; `∞ - ∞ = NaN`). -/
def JSNum.sub : JSNum → JSNum → JSNum
  | .num a, .num b => .num (a - b)
  | .nan, _ => .nan
  | _, .nan => .nan
  | .posInf, .posInf => .nan
  | .posInf, _ => .posInf
  | .negInf, .negInf => .nan
  | .negInf, _ => .negInf
  | .num _, .posInf => .negInf
  | .num _, .negInf => .posInf

/-- JS `Math.floor` (identity on NaN and the infinities). -/
def JSNum.floorJS : JSNum → JSNum
  | .num q => .num (⌊q⌋ : ℤ)
  | x => x

/-- JS `x > 0` (false for NaN). -/
def JSNum.gtZero : JSNum → Bool
  | .num q => decide (0 < q)
  | .posInf => true
  | _ => false

/-- JS number-to-string coercion for the (integer-valued after `floor`)
values concatenated by `secondsToMin`. -/
def JSNum.toChars : JSNum → Str
  | .num q => intToStr ⌊q⌋
  | .nan => ofStr "NaN"
  | .posInf => ofStr "Infinity"
  | .negInf => ofStr "-Infinity"

/-- JS `Math.floor(x * 10) / 10` (one decimal, truncated toward -∞). -/
def JSNum.floorTenths : JSNum → JSNum
  | .num q => .num (((⌊q * 10⌋ : ℤ) : ℚ) / 10)
  | x => x

/-- `secondsToMin` (source lines 400-406): formats a second count as
`[Hhr ]Mmin Ssec`; NaN/±Infinity inputs propagate into the printed fields
exactly as JS arithmetic propagates them. -/
def secondsToMin (sec : JSNum) : Str :=
  let totalTimeHr := (sec.divC 3600).floorJS
  let totalTimeMin := ((sec.sub (totalTimeHr.mulC 3600)).divC 60).floorJS
  let totalTimeSec :=
    ((sec.sub (totalTimeMin.mulC 60)).sub (totalTimeHr.mulC 3600)).floorJS
  (if totalTimeHr.gtZero then totalTimeHr.toChars ++ ofStr "hr " else [])
    ++ totalTimeMin.toChars ++ ofStr "min " ++ totalTimeSec.toChars
    ++ ofStr "sec"

/-- The console escape `"\033[1B"` bound to the module variable `newLine`. -/
def newLineStr : Str := ofStr "\x1b[1B"

/-- The bar glyph configuration `me.chars`.  Glyphs are modelled as single
characters (the source defaults are the single characters `█`, `░`, `=`). -/
structure Chars where
  complete : Char
  incomplete : Char
  head : Char
deriving DecidableEq, Repr

/-- Snapshot built by `buildReport` (source lines 281-292).
`sampledOps10` holds `me.opsPerSec` scaled by 10 (see `BarState.ops10`). -/
structure Report where
  title : Str
  barId : ℕ
  counted : ℤ
  expected : ℤ
  totalTime : Str
  precisionTotalTime : ℚ
  sampledOps10 : ℤ
  generalOpsPerSec : JSNum
deriving DecidableEq, Repr

/-- The instance state (`me` / `this`).  `ops10` stores `me.opsPerSec`
multiplied by 10: the sampler only ever assigns values of the form
`Math.floor(mean * 10) / 10`, so the scaled value is an integer.
`percent` stores the string `percent.toFixed(0)` (the constructor's initial
numeric `0` is represented by its rendering `"0"`). -/
structure BarState where
  id : ℕ
  fmt : Str
  curr : ℤ
  total : ℤ
  width : ℕ
  chars : Chars
  debounceLimit : Option ℕ
  elapsedTime : ℚ
  ops10 : ℤ
  totalOpsPerSec : JSNum
  startTime : ℚ
  writeLimit : Option ℕ
  complete : Bool
  percent : Str
  sample : ℤ
  timeSamples : List ℤ
  sampleTimerActive : Bool
  lastDraw : Str
  clear : Bool
  title : Str
  logResult : Bool
  delay : ℕ
  justMe : Bool
  noRender : Bool
  onTickFmt : Str
  report : Option Report
deriving Repr

instance : Inhabited BarState :=
  ⟨{ id := 0, fmt := [], curr := 0, total := 0, width := 0,
     chars := ⟨'=', '-', '='⟩, debounceLimit := none, elapsedTime := 0,
     ops10 := 0, totalOpsPerSec := .num 0, startTime := 0,
     writeLimit := none, complete := false, percent := [], sample := 0,
     timeSamples := [], sampleTimerActive := true, lastDraw := [],
     clear := false, title := [], logResult := true, delay := 1000,
     justMe := false, noRender := false, onTickFmt := [], report := none }⟩

/-- Observable effects: terminal-stream operations, lifecycle hooks
(defaulting to no-ops in the source, so recorded as bare events) and the
`console.log`s of `logReport`. -/
inductive Event where
  | write (s : Str)
  | clearLine
  | cursorTo (n : ℕ)
  | schedule (id : ℕ)
  | clearSample
  | hookStart
  | hookTick (s : Str)
  | hookUpdate
  | hookComplete
  | logged
deriving DecidableEq, Repr

def Event.isWrite : Event → Bool
  | .write _ => true
  | _ => false

/-- Module-level mutable state: `barInc`, `bars`, `barLines` (keyed by id,
storing the live title reference and the cached frame string), plus the
bookkeeping for outstanding debounce timers (`nextTimer` generates handle
ids; `outstanding` lists the not-yet-fired `setTimeout` handles). -/
structure Globals where
  barInc : ℕ
  bars : List ℕ
  barLines : List (ℕ × Str × Str)
  nextTimer : ℕ
  outstanding : List ℕ
deriving DecidableEq, Repr

def Globals.init : Globals :=
  { barInc := 0, bars := [], barLines := [], nextTimer := 0, outstanding := [] }

/-- The environment the process supplies: `stream.columns` and
`process.platform === 'win32'`. -/
structure Env where
  columns : ℕ
  win32 : Bool
deriving DecidableEq, Repr

/-- Constructor options.  `total` is `none` when the caller passed a
non-numeric (or no) `total`; numeric totals are modelled as integers. -/
structure Options where
  total : Option ℤ := none
  format : Option Str := none
  width : Option ℕ := none
  complete : Option Char := none
  incomplete : Option Char := none
  head : Option Char := none
  debounce : Option ℕ := none
  clear : Bool := false
  title : Option Str := none
  logResult : Bool := false
  delay : Option ℕ := none
  justMe : Bool := false
  noRender : Bool := false
  onTickFmt : Option Str := none
deriving Repr

/-- JS `x || default` for the optional numeric fields (`0` is falsy). -/
def orDefaultN (x : Option ℕ) (d : ℕ) : ℕ :=
  match x with
  | some v => if v = 0 then d else v
  | none => d

/-- JS `x || default` for the optional string fields (`''` is falsy). -/
def orDefaultS (x : Option Str) (d : Str) : Str :=
  match x with
  | some v => if v = [] then d else v
  | none => d

/-- The constructor `ProgressBar(options)` (source lines 53-115).
`barInc ++`, `bars.push(id)` and `me.id = id` happen *before* the
`typeof options.total` check, so they take effect even when construction
throws `Error('total required')`.  `me.logResult = options.logResult || true`
is always `true`.  `me.debounceLimit = options.debounce || null` maps `0`
to `null`.  Returns the updated globals, the constructed instance or the
thrown error message, and the emitted events (`onStart` fires last). -/
def mkBar (opts : Options) (g : Globals) (now : ℚ) :
    Globals × Except Str BarState × List Event :=
  let id := g.barInc + 1
  let g' := { g with barInc := id, bars := g.bars ++ [id] }
  match opts.total with
  | none => (g', .error (ofStr "total required"), [])
  | some t =>
    (g',
     .ok { id := id,
           fmt := orDefaultS opts.format (ofStr "[:bar] :percent"),
           curr := 0,
           total := t,
           width := orDefaultN opts.width 40,
           chars := { complete := opts.complete.getD '█',
                      incomplete := opts.incomplete.getD '░',
                      head := opts.head.getD (opts.complete.getD '=') },
           debounceLimit :=
             match opts.debounce with
             | some d => if d = 0 then none else some d
             | none => none,
           elapsedTime := 1 / 10000,
           ops10 := 0,
           totalOpsPerSec := .num 0,
           startTime := now,
           writeLimit := none,
           complete := false,
           percent := ofStr "0",
           sample := 0,
           timeSamples := [],
           sampleTimerActive := true,
           lastDraw := [],
           clear := opts.clear,
           title := orDefaultS opts.title (ofStr "->"),
           logResult := true,
           delay := orDefaultN opts.delay 1000,
           justMe := opts.justMe,
           noRender := opts.noRender,
           onTickFmt := orDefaultS opts.onTickFmt
             (ofStr ":current / :total (:percent)"),
           report := none },
     [Event.hookStart])

/-- The sampler callback of `me.sampleTimer` (source lines 95-106): push
the accumulated tally, reset it, evict the oldest sample when the window
exceeds 20, and recompute the smoothed rate
`Math.floor((sum / length) * 10) / 10` (stored scaled by 10 in `ops10`). -/
def sampleTimerFire (s : BarState) : BarState :=
  let ts := s.timeSamples ++ [s.sample]
  let ts := if ts.length > 20 then ts.tail else ts
  { s with sample := 0,
           timeSamples := ts,
           ops10 := ⌊((ts.sum : ℚ) / (ts.length : ℚ)) * 10⌋ }

/-- `ProgressBar.prototype.timeRemaining` (source lines 134-141):
`(total - curr) / opsPerSec`, with only the `=== Infinity` case normalized
to `0` before formatting. -/
def timeRemainingStr (s : BarState) : Str :=
  let timeLeft := jsDiv ((s.total - s.curr : ℤ) : ℚ) ((s.ops10 : ℚ) / 10)
  let timeLeft := if timeLeft = JSNum.posInf then JSNum.num 0 else timeLeft
  secondsToMin timeLeft

/-- The string returned by `ProgressBar.prototype.elapsed` (source lines
122-127): `secondsToMin(Math.floor(t * 1000) / 1000)`. -/
def elapsedStr (s : BarState) (now : ℚ) : Str :=
  secondsToMin (JSNum.num (((⌊(now - s.startTime) * 1000⌋ : ℤ) : ℚ) / 1000))

/-- `me.opsPerSec.toString()`: the stored value is `ops10 / 10`; JS prints
`k` when the value is integral and `k.d` otherwise. -/
def opsToChars (ops10 : ℤ) : Str :=
  let render := fun (m : ℕ) =>
    if m % 10 = 0 then natToChars (m / 10)
    else natToChars (m / 10) ++ ['.', digitChar (m % 10)]
  if ops10 < 0 then '-' :: render ops10.natAbs else render ops10.toNat

/-- The state mutations `doFormat` performs on `me` (source line 342 sets
`me.percent = percent.toFixed(0)`; the unconditional `me.elapsed()` call in
the replacement chain sets `me.totalOpsPerSec` and `me.elapsedTime`,
source lines 124-125). -/
def formatEffects (s : BarState) (now : ℚ) : BarState :=
  let t := now - s.startTime
  { s with
      percent := intToStr (jsRound ((s.curr : ℚ) / (s.total : ℚ) * 100)),
      totalOpsPerSec := (jsDiv (s.curr : ℚ) t).floorTenths,
      elapsedTime := t }

/-- The token-substitution chain of `doFormat` (source lines 346-358), in
source order.  Each `.replace` replaces only the first occurrence. -/
def substTokens (s : BarState) (now : ℚ) (format : Str) : Str :=
  let str := jsReplace format (ofStr ":c[blue]") (ofStr "\x1b[1;34m")
  let str := jsReplace str (ofStr ":c[white]") (ofStr "\x1b[1;37m")
  let str := jsReplace str (ofStr ":c[yellow]") (ofStr "\x1b[1;33m")
  let str := jsReplace str (ofStr ":c[red]") (ofStr "\x1b[1;31m")
  let str := jsReplace str (ofStr ":c[none]") (ofStr "\x1b[0m")
  let str := jsReplace str (ofStr ":nl") newLineStr
  let str := jsReplace str (ofStr ":current") (intToStr s.curr)
  let str := jsReplace str (ofStr ":total") (intToStr s.total)
  let str := jsReplace str (ofStr ":elapsed") (elapsedStr s now)
  let str := jsReplace str (ofStr ":eta") (timeRemainingStr s)
  let str := jsReplace str (ofStr ":percent")
    (intToStr (jsRound ((s.curr : ℚ) / (s.total : ℚ) * 100)) ++ ['%'])
  jsReplace str (ofStr ":opsec") (opsToChars s.ops10)

/-- The bar width computation of `doFormat` (source lines 360-365):
`availableSpace = Math.max(0, columns - str.replace(':bar','').length)`,
minus one on win32 when nonzero, then `Math.min(me.width, availableSpace)`. -/
def barWidth (s : BarState) (env : Env) (str : Str) : ℕ :=
  let availableSpace : ℕ :=
    ((env.columns : ℤ) - ((jsReplace str (ofStr ":bar") []).length : ℤ)).toNat
  let availableSpace :=
    if env.win32 ∧ availableSpace ≠ 0 then availableSpace - 1
    else availableSpace
  min s.width availableSpace

/-- The bar glyph construction of `doFormat` (source lines 367-376).
`Array(Math.max(0, k + 1)).join(c)` repeats `c` exactly `max 0 k` times,
hence the `Int.toNat` clamps; the `if (!completeLength) completeLength = 0`
NaN-guard of the source is the identity on these integer values. -/
def buildBar (ch : Chars) (w : ℕ) (r : ℚ) : Str :=
  let completeLength : ℤ := jsRound ((w : ℚ) * r)
  let comp : Str := List.replicate completeLength.toNat ch.complete
  let inc : Str := List.replicate ((w : ℤ) - completeLength).toNat ch.incomplete
  let comp := if 0 < completeLength then comp.dropLast ++ [ch.head] else comp
  comp ++ inc

/-- `doFormat(me, format)` (source lines 337-383): substitute the tokens,
compute the width from the substituted string with `:bar` removed, splice
the built bar into the first `:bar`, and return the string together with
the mutated instance state (`formatEffects`). -/
def doFormat (env : Env) (now : ℚ) (s : BarState) (format : Str) :
    Str × BarState :=
  let rq : ℚ := min (max ((s.curr : ℚ) / (s.total : ℚ)) 0) 1
  let str := substTokens s now format
  (jsReplace str (ofStr ":bar")
     (buildBar s.chars (barWidth s env str) rq),
   formatEffects s now)

/-- The frame `doFormat(me, me.title + ' ' + me.fmt)` computes for
`doRender` (string component). -/
def frameOf (env : Env) (now : ℚ) (s : BarState) : Str :=
  (doFormat env now s (s.title ++ [' '] ++ s.fmt)).1

/-- Result of an operation: the instance, the globals and the events it
emitted, in order. -/
structure Run where
  bar : BarState
  globs : Globals
  events : List Event
deriving Repr

/-- Sequencing helper: run `f` after `r`, concatenating events. -/
def seqRun (r : Run) (f : BarState → Globals → Run) : Run :=
  let r' := f r.bar r.globs
  ⟨r'.bar, r'.globs, r.events ++ r'.events⟩

/-- `barLines[id] = {str, me}`: ids are assigned in increasing order, so
replacing in place (or appending) keeps `Object.keys`'s ascending numeric
iteration order. -/
def upsertLine (ls : List (ℕ × Str × Str)) (id : ℕ) (v : Str × Str) :
    List (ℕ × Str × Str) :=
  match ls with
  | [] => [(id, v)]
  | (i, w) :: rest =>
    if i = id then (id, v) :: rest else (i, w) :: upsertLine rest id v

/-- `doRender(me)` (source lines 298-335).  A `noRender` bar returns at
once.  Otherwise the frame is formatted, cached in `barLines`, and written
(preceded by `clearLine(1)`/`cursorTo(0)`) only when it differs from
`lastDraw` and the bar is not complete.  With more than one live bar the
concatenated `bigStr` is written instead (and a `justMe` bar's
`debounceLimit` is set to its `delay`); the `.me` references stored for
*other* instances live outside this single-instance state and are not
modelled. -/
def doRender (env : Env) (now : ℚ) (s : BarState) (g : Globals) : Run :=
  if s.noRender then ⟨s, g, []⟩
  else
    let str := frameOf env now s
    let s₁ := formatEffects s now
    let g₁ := { g with barLines := upsertLine g.barLines s.id (s.title, str) }
    let bigStr :=
      if g₁.barLines.length > 1 then
        g₁.barLines.foldl
          (fun acc e => acc ++ e.2.1 ++ e.2.2 ++ newLineStr ++ [' ']) []
      else str
    let s₂ :=
      if g₁.barLines.length > 1 ∧ s₁.justMe then
        { s₁ with debounceLimit := some s₁.delay }
      else s₁
    if s.lastDraw ≠ str ∧ ¬s.complete then
      ⟨{ s₂ with lastDraw := str }, g₁,
       [.clearLine, .cursorTo 0, .write (if s.justMe then str else bigStr)]⟩
    else ⟨s₂, g₁, []⟩

/-- `buildReport(me)` (source lines 281-292). -/
def buildReport (s : BarState) : BarState :=
  { s with report := some {
      title := s.title, barId := s.id, counted := s.curr,
      expected := s.total,
      totalTime := secondsToMin (JSNum.num s.elapsedTime),
      precisionTotalTime := s.elapsedTime,
      sampledOps10 := s.ops10,
      generalOpsPerSec := s.totalOpsPerSec } }

/-- `ProgressBar.prototype.terminate` (source lines 266-275): clear the
line or emit a trailing newline. -/
def terminateEvents (s : BarState) : List Event :=
  if s.clear then [.clearLine, .cursorTo 0] else [.write (ofStr "\n")]

/-- `ProgressBar.prototype.render` (source lines 146-180).  When
`curr === total`: the `this.writeLimit.clearTimeout()` call always throws
(timeout handles have no such method) and is swallowed by the `try/catch`,
so the pending debounce timer is *not* cancelled; the sample interval is
cleared, one forced `doRender` runs, the report is built, `terminate` and
the completion hook fire, `complete` is set and (since `logResult` is
always true) the report is logged.  Otherwise: render immediately without
a debounce limit; with one, drop the request if a timer is outstanding,
else schedule a new timer. -/
def render (env : Env) (now : ℚ) (s : BarState) (g : Globals) : Run :=
  if s.curr = s.total then
    let s₁ := { s with sampleTimerActive := false }
    let r := doRender env now s₁ g
    let s₂ := buildReport r.bar
    let evT := terminateEvents s₂
    let s₃ := { s₂ with complete := true }
    let evL := if s₃.logResult then [Event.logged] else []
    ⟨s₃, r.globs,
     Event.clearSample :: r.events ++ evT ++ [Event.hookComplete] ++ evL⟩
  else if s.debounceLimit = none then doRender env now s g
  else if s.writeLimit.isSome then ⟨s, g, []⟩
  else
    ⟨{ s with writeLimit := some g.nextTimer },
     { g with nextTimer := g.nextTimer + 1,
              outstanding := g.outstanding ++ [g.nextTimer] },
     [Event.schedule g.nextTimer]⟩

/-- The debounce `setTimeout` callback firing (source lines 175-178): it
runs `doRender` against the instance state *at fire time* (the closure
captures `me` by reference) and then clears `writeLimit`.  Firing with no
outstanding timer is a no-op. -/
def fireDebounce (env : Env) (now : ℚ) (s : BarState) (g : Globals) : Run :=
  match g.outstanding with
  | [] => ⟨s, g, []⟩
  | _ :: rest =>
    let r := doRender env now s g
    ⟨{ r.bar with writeLimit := none }, { r.globs with outstanding := rest },
     r.events⟩

/-- The effective delta of `tick(len)` (source lines 202-204):
`undefined → 1`, `0 → 0`, any other number unchanged. -/
def tickLen : Option ℤ → ℤ
  | none => 1
  | some v => if v = 0 then 0 else v

/-- `ProgressBar.prototype.tick` (source lines 201-222): accumulate the
sample tally, advance `curr`; an overshoot (`curr > total`) only sets
`complete` and returns; otherwise the `onTick` hook receives
`doFormat(this, onTickFmt)` (whose state mutations take effect), `onUpdate`
fires and `render` runs. -/
def tick (env : Env) (now : ℚ) (s : BarState) (g : Globals)
    (len : Option ℤ) : Run :=
  let l := tickLen len
  let s := { s with sample := s.sample + l, curr := s.curr + l }
  if s.curr > s.total then ⟨{ s with complete := true }, g, []⟩
  else
    let p := doFormat env now s s.onTickFmt
    let r := render env now p.2 g
    ⟨r.bar, r.globs, [Event.hookTick p.1, Event.hookUpdate] ++ r.events⟩

/-- Fold a sequence of `tick` calls. -/
def runTicks (env : Env) (now : ℚ) (s : BarState) (g : Globals)
    (ds : List (Option ℤ)) : Run :=
  ds.foldl (fun r d => seqRun r (fun s g => tick env now s g d)) ⟨s, g, []⟩

/-- The effective delta a `tick` argument contributes when the host only
ever passes nonnegative deltas: no argument counts as 1. -/
def deltaVal : Option ℕ → ℕ
  | none => 1
  | some v => v

/-- A nonnegative tick argument as the integer the source receives. -/
def natDelta (d : Option ℕ) : Option ℤ := d.map Int.ofNat

/-- The externally triggerable operations of one bar instance: a `tick`
call, a direct `render` call, the debounce `setTimeout` callback firing,
and the 1-second sampler firing.  Each carries the clock reading at which
it happens. -/
inductive Act where
  | tickAct (d : Option ℤ) (now : ℚ)
  | renderAct (now : ℚ)
  | fireAct (now : ℚ)
  | sampleAct
deriving Repr

def stepAct (env : Env) (r : Run) (a : Act) : Run :=
  match a with
  | .tickAct d now => seqRun r (fun s g => tick env now s g d)
  | .renderAct now => seqRun r (fun s g => render env now s g)
  | .fireAct now => seqRun r (fun s g => fireDebounce env now s g)
  | .sampleAct => seqRun r (fun s g => ⟨sampleTimerFire s, g, []⟩)

def runActs (env : Env) (r : Run) (acts : List Act) : Run :=
  acts.foldl (stepAct env) r

/-- Debounce-timer invariant: at most one outstanding `setTimeout`, and
`writeLimit` is non-null exactly when one is outstanding. -/
def DI (s : BarState) (g : Globals) : Prop :=
  g.outstanding.length ≤ 1 ∧ (s.writeLimit.isSome = true ↔ g.outstanding ≠ [])

/-- Fold repeated sampler firings, each preceded by ticks that accumulated
the given tally into `me.sample`. -/
def runSampler (s : BarState) (tallies : List ℕ) : BarState :=
  tallies.foldl (fun s t => sampleTimerFire { s with sample := s.sample + (t : ℤ) }) s

/-- The most recent `n` elements of a list. -/
def lastN (n : ℕ) (l : List ℤ) : List ℤ := l.drop (l.length - n)

/-- Natural tallies as the integers the sampler stores. -/
def intsOf (l : List ℕ) : List ℤ := l.map Int.ofNat

/-- The bar string as the specification describes it: `cl` complete glyphs
with the last replaced by the head glyph whenever `cl > 0`, followed by
`w - cl` incomplete glyphs. -/
def specBar (ch : Chars) (w cl : ℕ) : Str :=
  (if cl = 0 then [] else List.replicate (cl - 1) ch.complete ++ [ch.head])
    ++ List.replicate (w - cl) ch.incomplete

/-- `pat` occurs somewhere inside `s`. -/
def occursIn (p s : Str) : Prop := ∃ u v, s = u ++ p ++ v

/-- The tokens `doFormat` recognizes, in replacement order (`:bar` is
substituted last, after the width computation). -/
def tokenList : List Str :=
  [ofStr ":c[blue]", ofStr ":c[white]", ofStr ":c[yellow]", ofStr ":c[red]",
   ofStr ":c[none]", ofStr ":nl", ofStr ":current", ofStr ":total",
   ofStr ":elapsed", ofStr ":eta", ofStr ":percent", ofStr ":opsec",
   ofStr ":bar"]

/-- Run a list of `(pattern, replacement)` stages left to right. -/
def applyStages (stages : List (Str × Str)) (s : Str) : Str :=
  stages.foldl (fun acc pv => jsReplace acc pv.1 pv.2) s

/-- The twelve substitution stages of `substTokens`, with their values. -/
def stageList (s : BarState) (now : ℚ) : List (Str × Str) :=
  [(ofStr ":c[blue]", ofStr "\x1b[1;34m"),
   (ofStr ":c[white]", ofStr "\x1b[1;37m"),
   (ofStr ":c[yellow]", ofStr "\x1b[1;33m"),
   (ofStr ":c[red]", ofStr "\x1b[1;31m"),
   (ofStr ":c[none]", ofStr "\x1b[0m"),
   (ofStr ":nl", newLineStr),
   (ofStr ":current", intToStr s.curr),
   (ofStr ":total", intToStr s.total),
   (ofStr ":elapsed", elapsedStr s now),
   (ofStr ":eta", timeRemainingStr s),
   (ofStr ":percent",
     intToStr (jsRound ((s.curr : ℚ) / (s.total : ℚ) * 100)) ++ ['%']),
   (ofStr ":opsec", opsToChars s.ops10)]

/-- Extract the instance from a successful construction (`default` is never
reached in the uses below). -/
def okOr (e : Except Str BarState) : BarState :=
  match e with
  | .ok s => s
  | .error _ => default

/-- An 80-column non-Windows terminal. -/
def env80 : Env := { columns := 80, win32 := false }

/-- A bar freshly constructed with `{ total: t }` against empty globals at
clock 0. -/
def demoBar (t : ℤ) : BarState :=
  okOr (mkBar { total := some t } Globals.init 0).2.1

/-- A bar whose format displays `:eta`, with `total = 1`. -/
def etaBar : BarState :=
  okOr (mkBar { total := some 1, format := some (ofStr "[:bar] :eta") }
          Globals.init 0).2.1

/-! ## Theorems -/

/-- C2, counterexample.  The claim is false on the code in two ways:
construction with `total = 0` (a number) succeeds instead of failing, and
a failing construction (non-numeric `total`) still mutates the module
globals (`barInc` is incremented) before the throw. -/
theorem c2_total_zero_accepted :
    ((mkBar { total := some 0 } Globals.init 0).2.1.isOk = true) ∧
    ((mkBar { total := none } Globals.init 0).2.1.isOk = false) ∧
    (mkBar { total := none } Globals.init 0).1.barInc = 1 ∧
    Globals.init.barInc = 0 :=
  ⟨rfl, rfl, rfl, rfl⟩

/-- C2, amended: construction fails (with `Error('total required')`) exactly
when `total` is non-numeric; `total = 0` is accepted; and construction —
successful or not — increments the global bar counter and registers the new
id, so a failed construction does leave an observable global state change. -/
theorem c2_construction (opts : Options) (g : Globals) (now : ℚ) :
    ((mkBar opts g now).2.1.isOk = true ↔ opts.total.isSome = true) ∧
    (mkBar opts g now).1.barInc = g.barInc + 1 ∧
    (mkBar opts g now).1.bars = g.bars ++ [g.barInc + 1] := by
  cases h : opts.total <;> simp [mkBar, h, Except.isOk, Except.toBool]

/-- `secondsToMin` propagates NaN into both printed fields. -/
theorem secondsToMin_nan : secondsToMin JSNum.nan = ofStr "NaNmin NaNsec" := rfl

/-- `secondsToMin 0` is `0min 0sec`. -/
theorem secondsToMin_zero :
    secondsToMin (JSNum.num 0) = ofStr "0min 0sec" := by
  simp only [secondsToMin, JSNum.divC, JSNum.floorJS, JSNum.mulC, JSNum.sub,
    JSNum.gtZero, JSNum.toChars]
  norm_num
  rfl

/-- C5: with a zero smoothed rate, `:eta` is `0min 0sec` only while
`curr < total` (where `ticksLeft / 0 = Infinity` is normalized to 0); at
`curr = total` the division is `0 / 0 = NaN`, which `timeRemaining` does
not normalize, and `:eta` renders as `NaNmin NaNsec`.  The state is
reachable: a single `tick(1)` on a fresh `total = 1` bar completes before
any sampler firing, so `opsPerSec` is still 0 when the completion frame is
formatted. -/
theorem c5_eta_nan :
    timeRemainingStr { demoBar 1 with curr := 1 } = ofStr "NaNmin NaNsec" ∧
    timeRemainingStr (demoBar 1) = ofStr "0min 0sec" := by
  have h4 : (demoBar 1).total = 1 := rfl
  have h5 : (demoBar 1).curr = 0 := rfl
  have h6 : (demoBar 1).ops10 = 0 := rfl
  constructor
  · simp only [timeRemainingStr]
    norm_num [jsDiv, h4, h6]
    rfl
  · simp only [timeRemainingStr]
    norm_num [jsDiv, h4, h5, h6, secondsToMin_zero]

/-- `doRender` never emits a completion-hook event. -/
theorem doRender_hook_count (env : Env) (now : ℚ) (s : BarState) (g : Globals) :
    (doRender env now s g).events.count Event.hookComplete = 0 := by
  simp only [doRender]
  split
  · rfl
  · split <;> simp [List.count_cons]

/-- `doRender` leaves `curr`, `total` and the `complete` flag unchanged. -/
theorem doRender_core_fields (env : Env) (now : ℚ) (s : BarState) (g : Globals) :
    (doRender env now s g).bar.curr = s.curr ∧
    (doRender env now s g).bar.total = s.total ∧
    (doRender env now s g).bar.complete = s.complete := by
  simp only [doRender]
  split
  · exact ⟨rfl, rfl, rfl⟩
  · split <;> split <;> exact ⟨rfl, rfl, rfl⟩

/-- The completion branch of `render` fires the completion hook exactly
once per entry. -/
theorem render_hook_once (env : Env) (now : ℚ) (s : BarState) (g : Globals)
    (h : s.curr = s.total) :
    (render env now s g).events.count Event.hookComplete = 1 := by
  simp only [render, if_pos h]
  simp [List.count_cons, List.count_append, terminateEvents,
    doRender_hook_count, apply_ite (List.count Event.hookComplete)]

/-- The completion branch of `render` preserves `curr` and `total`. -/
theorem render_completion_state (env : Env) (now : ℚ) (s : BarState)
    (g : Globals) (h : s.curr = s.total) :
    (render env now s g).bar.curr = s.curr ∧
    (render env now s g).bar.total = s.total := by
  simp only [render, if_pos h]
  exact ⟨(doRender_core_fields env now _ g).1,
         (doRender_core_fields env now _ g).2.1⟩

/-- A tick that lands exactly on `total` fires the completion hook exactly
once. -/
theorem tick_hook_once (env : Env) (now : ℚ) (s : BarState) (g : Globals)
    (d : Option ℤ) (h : s.curr + tickLen d = s.total) :
    (tick env now s g d).events.count Event.hookComplete = 1 := by
  have hng : ¬ s.curr + tickLen d > s.total := by omega
  simp only [tick, if_neg hng]
  have hct : (doFormat env now { s with sample := s.sample + tickLen d, curr := s.curr + tickLen d } s.onTickFmt).2.curr = (doFormat env now { s with sample := s.sample + tickLen d, curr := s.curr + tickLen d } s.onTickFmt).2.total := by
    show s.curr + tickLen d = s.total
    exact h
  simp [List.count_cons, List.count_append]
  exact render_hook_once env now _ g hct

/-- A tick that lands exactly on `total` leaves the resulting `curr` and
`total` at the completion point. -/
theorem tick_completion_state (env : Env) (now : ℚ) (s : BarState)
    (g : Globals) (d : Option ℤ) (h : s.curr + tickLen d = s.total) :
    (tick env now s g d).bar.curr = s.curr + tickLen d ∧
    (tick env now s g d).bar.total = s.total := by
  have hng : ¬ s.curr + tickLen d > s.total := by omega
  simp only [tick, if_neg hng]
  have hct : (doFormat env now { s with sample := s.sample + tickLen d, curr := s.curr + tickLen d } s.onTickFmt).2.curr = (doFormat env now { s with sample := s.sample + tickLen d, curr := s.curr + tickLen d } s.onTickFmt).2.total := by
    show s.curr + tickLen d = s.total
    exact h
  exact ⟨(render_completion_state env now _ g hct).1,
         (render_completion_state env now _ g hct).2⟩

/-- C1: the two completion paths diverge from the claim.  An overshooting
tick (`total = 1`, `tick(2)`) sets `complete` but emits no event at all —
no completion render, no report, no timer cancellation, no hooks, and in
particular no `onComplete`.  A tick reaching `total` exactly runs the full
completion path once — but a subsequent `tick(0)` re-enters `render`'s
`curr === total` branch and fires the entire completion path (including
`onComplete`) a second time, so it is not a no-op. -/
theorem c1_completion_divergence :
    ((tick env80 1 (demoBar 1) Globals.init (some 2)).bar.complete = true) ∧
    ((tick env80 1 (demoBar 1) Globals.init (some 2)).events = []) ∧
    ((tick env80 1 (demoBar 1) Globals.init (some 1)).events.count
        Event.hookComplete = 1) ∧
    ((tick env80 2
        (tick env80 1 (demoBar 1) Globals.init (some 1)).bar
        (tick env80 1 (demoBar 1) Globals.init (some 1)).globs
        (some 0)).events.count Event.hookComplete = 1) := by
  have hb : (demoBar 1).curr = 0 ∧ (demoBar 1).total = 1 := ⟨rfl, rfl⟩
  have hfirst := tick_completion_state env80 1 (demoBar 1) Globals.init
    (some 1) (by rw [hb.1, hb.2]; rfl)
  refine ⟨rfl, rfl, ?_, ?_⟩
  · exact tick_hook_once env80 1 (demoBar 1) Globals.init (some 1)
      (by rw [hb.1, hb.2]; rfl)
  · refine tick_hook_once env80 2 _ _ (some 0) ?_
    rw [hfirst.1, hfirst.2, hb.1, hb.2]
    rfl

/-- C9, counterexample: `doFormat` does not leave every field of the state
unchanged — on a bar with `curr = 1`, `total = 2` it overwrites the
`percent` field (with `"50"`). -/
theorem c9_percent_mutated :
    ((doFormat env80 1 { demoBar 2 with curr := 1 }
        (demoBar 2).fmt).2).percent
      ≠ ({ demoBar 2 with curr := 1 } : BarState).percent := by
  intro h
  have h2 : intToStr (jsRound (((1 : ℤ) : ℚ) / ((2 : ℤ) : ℚ) * 100))
      = ofStr "0" := h
  rw [show jsRound (((1 : ℤ) : ℚ) / ((2 : ℤ) : ℚ) * 100) = 50 by
    norm_num [jsRound]] at h2
  exact absurd h2 (by decide)

/-- C9, amended: `doFormat` is deterministic given the clock reading, but it
mutates exactly the `percent`, `totalOpsPerSec` and `elapsedTime` fields
(the `me.percent` assignment and the unconditional `me.elapsed()` call);
every other field is unchanged, and a second call on the mutated state at
the same clock reading returns the same string. -/
theorem c9_format_frame_effect (env : Env) (now : ℚ) (s : BarState)
    (format : Str) :
    ((doFormat env now s format).2.id = s.id) ∧
    ((doFormat env now s format).2.fmt = s.fmt) ∧
    ((doFormat env now s format).2.curr = s.curr) ∧
    ((doFormat env now s format).2.total = s.total) ∧
    ((doFormat env now s format).2.width = s.width) ∧
    ((doFormat env now s format).2.chars = s.chars) ∧
    ((doFormat env now s format).2.debounceLimit = s.debounceLimit) ∧
    ((doFormat env now s format).2.ops10 = s.ops10) ∧
    ((doFormat env now s format).2.startTime = s.startTime) ∧
    ((doFormat env now s format).2.writeLimit = s.writeLimit) ∧
    ((doFormat env now s format).2.complete = s.complete) ∧
    ((doFormat env now s format).2.sample = s.sample) ∧
    ((doFormat env now s format).2.timeSamples = s.timeSamples) ∧
    ((doFormat env now s format).2.sampleTimerActive = s.sampleTimerActive) ∧
    ((doFormat env now s format).2.lastDraw = s.lastDraw) ∧
    ((doFormat env now s format).2.clear = s.clear) ∧
    ((doFormat env now s format).2.title = s.title) ∧
    ((doFormat env now s format).2.logResult = s.logResult) ∧
    ((doFormat env now s format).2.delay = s.delay) ∧
    ((doFormat env now s format).2.justMe = s.justMe) ∧
    ((doFormat env now s format).2.noRender = s.noRender) ∧
    ((doFormat env now s format).2.onTickFmt = s.onTickFmt) ∧
    ((doFormat env now s format).2.report = s.report) ∧
    ((doFormat env now ((doFormat env now s format).2) format).1 =
      (doFormat env now s format).1) :=
  ⟨rfl, rfl, rfl, rfl, rfl, rfl, rfl, rfl, rfl, rfl, rfl, rfl, rfl, rfl,
   rfl, rfl, rfl, rfl, rfl, rfl, rfl, rfl, rfl, rfl⟩

/-- A `doRender` whose freshly formatted frame equals the cached
`lastDraw` emits nothing. -/
theorem doRender_suppressed (env : Env) (now : ℚ) (s : BarState)
    (g : Globals) (h : frameOf env now s = s.lastDraw) :
    (doRender env now s g).events = [] := by
  simp only [doRender]
  split
  · rfl
  · have hcond : ¬(s.lastDraw ≠ frameOf env now s ∧ ¬s.complete = true) :=
      fun hc => hc.1 h.symm
    rw [if_neg hcond]

/-- Any single `doRender` performs at most one stream write. -/
theorem doRender_write_count (env : Env) (now : ℚ) (s : BarState)
    (g : Globals) :
    (doRender env now s g).events.countP Event.isWrite ≤ 1 := by
  simp only [doRender]
  split
  · simp
  · split <;> simp [List.countP_cons, Event.isWrite]

/-- A non-`noRender` `doRender` either emits nothing and keeps `lastDraw`,
or caches the freshly formatted frame as the new `lastDraw`. -/
theorem doRender_dichotomy (env : Env) (now : ℚ) (s : BarState)
    (g : Globals) (hn : s.noRender = false) :
    ((doRender env now s g).events = [] ∧
      (doRender env now s g).bar.lastDraw = s.lastDraw) ∨
    (doRender env now s g).bar.lastDraw = frameOf env now s := by
  simp only [doRender]
  split
  · next htrue => rw [hn] at htrue; exact absurd htrue (by simp)
  · split
    · exact Or.inr (by split <;> rfl)
    · refine Or.inl ⟨rfl, ?_⟩
      split <;> rfl

/-- `doRender` does not change the formatted frame, the `complete` flag or
the `noRender` flag. -/
theorem doRender_frame_pres (env : Env) (now : ℚ) (s : BarState)
    (g : Globals) :
    frameOf env now (doRender env now s g).bar = frameOf env now s ∧
    (doRender env now s g).bar.complete = s.complete ∧
    (doRender env now s g).bar.noRender = s.noRender := by
  simp only [doRender]
  split
  · exact ⟨rfl, rfl, rfl⟩
  · split <;> split <;> exact ⟨rfl, rfl, rfl⟩

/-- C6: if the freshly formatted frame equals the last-drawn frame, the
render performs no terminal operation at all; and two consecutive
`doRender`s with no intervening state change perform at most one write in
total (the second is suppressed by the `lastDraw` cache). -/
theorem c6_render_suppression (env : Env) (now : ℚ) (s : BarState)
    (g : Globals) (hc : s.complete = false) :
    (frameOf env now s = s.lastDraw → (doRender env now s g).events = []) ∧
    ((doRender env now s g).events ++
      (doRender env now (doRender env now s g).bar
        (doRender env now s g).globs).events).countP Event.isWrite ≤ 1 := by
  constructor
  · intro h
    exact doRender_suppressed env now s g h
  · by_cases hn : s.noRender = true
    · have e1 : doRender env now s g = ⟨s, g, []⟩ := by
        simp only [doRender, if_pos hn]
      rw [e1]
      show (([] : List Event) ++ (doRender env now s g).events).countP
        Event.isWrite ≤ 1
      rw [e1]
      simp
    · have hn' : s.noRender = false := by
        cases hx : s.noRender
        · rfl
        · exact absurd hx hn
      rcases doRender_dichotomy env now s g hn' with ⟨he, _⟩ | hl
      · rw [he, List.nil_append]
        exact doRender_write_count env now _ _
      · have h2 : (doRender env now (doRender env now s g).bar
            (doRender env now s g).globs).events = [] := by
          apply doRender_suppressed
          rw [(doRender_frame_pres env now s g).1, hl]
        rw [h2, List.append_nil]
        exact doRender_write_count env now s g

/-- A `render` before completion (`curr ≠ total`) leaves `curr`, `total`
and the `complete` flag unchanged. -/
theorem render_noncompletion_fields (env : Env) (now : ℚ) (s : BarState)
    (g : Globals) (h : s.curr ≠ s.total) :
    (render env now s g).bar.curr = s.curr ∧
    (render env now s g).bar.total = s.total ∧
    (render env now s g).bar.complete = s.complete := by
  simp only [render, if_neg h]
  split
  · exact doRender_core_fields env now s g
  · split
    · exact ⟨rfl, rfl, rfl⟩
    · exact ⟨rfl, rfl, rfl⟩

/-- The delta a mapped `tick` argument contributes. -/
theorem tickLen_map (d : Option ℕ) :
    tickLen (natDelta d) = ((deltaVal d : ℕ) : ℤ) := by
  cases d with
  | none => rfl
  | some v =>
    show (if (v : ℤ) = 0 then 0 else (v : ℤ)) = (v : ℤ)
    by_cases hv : (v : ℤ) = 0
    · rw [if_pos hv, hv]
    · rw [if_neg hv]

/-- A tick that stays strictly below `total` advances `curr` by its delta
and leaves `total` and the `complete` flag unchanged. -/
theorem tick_step (env : Env) (now : ℚ) (s : BarState) (g : Globals)
    (d : Option ℤ) (h : s.curr + tickLen d < s.total) :
    (tick env now s g d).bar.curr = s.curr + tickLen d ∧
    (tick env now s g d).bar.total = s.total ∧
    (tick env now s g d).bar.complete = s.complete := by
  have hng : ¬ s.curr + tickLen d > s.total := by omega
  simp only [tick, if_neg hng]
  have hne : (doFormat env now { s with sample := s.sample + tickLen d, curr := s.curr + tickLen d } s.onTickFmt).2.curr ≠ (doFormat env now { s with sample := s.sample + tickLen d, curr := s.curr + tickLen d } s.onTickFmt).2.total := by
    show s.curr + tickLen d ≠ s.total
    omega
  exact ⟨(render_noncompletion_fields env now _ g hne).1,
         (render_noncompletion_fields env now _ g hne).2.1,
         (render_noncompletion_fields env now _ g hne).2.2⟩

/-- The bar resulting from a tick fold does not depend on previously
accumulated events. -/
theorem runTicks_shift (env : Env) (now : ℚ) (ds : List (Option ℤ)) :
    ∀ (s : BarState) (g : Globals) (e : List Event),
      (ds.foldl (fun r d => seqRun r (fun s g => tick env now s g d))
        ⟨s, g, e⟩).bar = (runTicks env now s g ds).bar := by
  induction ds with
  | nil => intro s g e; rfl
  | cons d ds ih =>
    intro s g e
    simp only [runTicks, List.foldl_cons]
    rw [show (seqRun ⟨s, g, e⟩ fun s g => tick env now s g d)
        = (⟨(tick env now s g d).bar, (tick env now s g d).globs,
            e ++ (tick env now s g d).events⟩ : Run) from rfl]
    rw [show (seqRun ⟨s, g, []⟩ fun s g => tick env now s g d)
        = (⟨(tick env now s g d).bar, (tick env now s g d).globs,
            [] ++ (tick env now s g d).events⟩ : Run) from rfl]
    rw [ih, ih]

/-- Ticks whose remaining nonnegative deltas keep `curr` strictly below
`total` accumulate exactly and never set the `complete` flag. -/
theorem runTicks_running (env : Env) (now : ℚ) (ds : List (Option ℕ)) :
    ∀ (s : BarState) (g : Globals), s.complete = false →
      s.curr + (((ds.map deltaVal).sum : ℕ) : ℤ) < s.total →
      (runTicks env now s g (ds.map natDelta)).bar.curr
          = s.curr + (((ds.map deltaVal).sum : ℕ) : ℤ) ∧
      (runTicks env now s g (ds.map natDelta)).bar.complete
          = false ∧
      (runTicks env now s g (ds.map natDelta)).bar.total
          = s.total := by
  induction ds with
  | nil =>
    intro s g hc _
    exact ⟨by simp [runTicks], by simpa [runTicks] using hc, by simp [runTicks]⟩
  | cons d ds ih =>
    intro s g hc hlt
    have hsum : (((d :: ds).map deltaVal).sum : ℤ)
        = ((deltaVal d : ℕ) : ℤ) + (((ds.map deltaVal).sum : ℕ) : ℤ) := by
      push_cast [List.map_cons, List.sum_cons]
      ring
    have hrest : (0 : ℤ) ≤ (((ds.map deltaVal).sum : ℕ) : ℤ) := Int.ofNat_nonneg _
    have hstep : s.curr + tickLen (natDelta d) < s.total := by
      rw [tickLen_map]
      omega
    have hT := tick_step env now s g (natDelta d) hstep
    have hmap : (d :: ds).map natDelta = natDelta d :: ds.map natDelta := rfl
    rw [hmap]
    have hun : (runTicks env now s g (natDelta d :: ds.map natDelta)).bar
        = (runTicks env now (tick env now s g (natDelta d)).bar
            (tick env now s g (natDelta d)).globs
            (ds.map natDelta)).bar := by
      simp only [runTicks, List.foldl_cons]
      rw [show (seqRun ⟨s, g, []⟩ fun s g => tick env now s g (natDelta d))
          = (⟨(tick env now s g (natDelta d)).bar,
              (tick env now s g (natDelta d)).globs,
              [] ++ (tick env now s g (natDelta d)).events⟩ : Run) from rfl]
      rw [runTicks_shift, runTicks_shift]
    rw [hun]
    have hc' : (tick env now s g (natDelta d)).bar.complete = false := by
      rw [hT.2.2]; exact hc
    have hlt' : (tick env now s g (natDelta d)).bar.curr
        + (((ds.map deltaVal).sum : ℕ) : ℤ)
        < (tick env now s g (natDelta d)).bar.total := by
      rw [hT.1, hT.2.1, tickLen_map]
      omega
    obtain ⟨ha, hb, hd⟩ := ih _ _ hc' hlt'
    refine ⟨?_, hb, ?_⟩
    · rw [ha, hT.1, tickLen_map, hsum]
      ring
    · rw [hd, hT.2.1]

/-- C3: on a freshly constructed bar, any sequence of tick calls with
nonnegative deltas (no argument counting as 1) whose sum `S` is below
`total` leaves the controller running — the `complete` flag is still unset
— with `curr = S`. -/
theorem c3_ticks_accumulate (env : Env) (now : ℚ) (opts : Options)
    (g : Globals) (tot : ℤ) (s₀ : BarState)
    (hmk : (mkBar opts g now).2.1 = Except.ok s₀)
    (htot : opts.total = some tot)
    (ds : List (Option ℕ))
    (hS : (((ds.map deltaVal).sum : ℕ) : ℤ) < tot) :
    (runTicks env now s₀ (mkBar opts g now).1
        (ds.map natDelta)).bar.curr
      = (((ds.map deltaVal).sum : ℕ) : ℤ) ∧
    (runTicks env now s₀ (mkBar opts g now).1
        (ds.map natDelta)).bar.complete = false := by
  have hfields : s₀.curr = 0 ∧ s₀.complete = false ∧ s₀.total = tot := by
    simp only [mkBar, htot, Except.ok.injEq] at hmk
    subst hmk
    exact ⟨rfl, rfl, rfl⟩
  obtain ⟨ha, hb, _⟩ := runTicks_running env now ds s₀ (mkBar opts g now).1
    hfields.2.1 (by rw [hfields.1, hfields.2.2]; simpa using hS)
  refine ⟨?_, hb⟩
  rw [ha, hfields.1]
  ring

/-- One push-then-evict step on the window keeps it equal to the most
recent 20 entries. -/
theorem lastN_step (L : List ℤ) (x : ℤ) :
    (if (lastN 20 L ++ [x]).length > 20 then (lastN 20 L ++ [x]).tail
     else lastN 20 L ++ [x]) = lastN 20 (L ++ [x]) := by
  by_cases hn : L.length < 20
  · have h1 : lastN 20 L = L := by
      simp [lastN, Nat.sub_eq_zero_of_le (le_of_lt hn)]
    have h2 : lastN 20 (L ++ [x]) = L ++ [x] := by
      simp only [lastN, List.length_append, List.length_cons,
        List.length_nil]
      rw [Nat.sub_eq_zero_of_le (by omega), List.drop_zero]
    rw [h1, h2, if_neg (by simp; omega)]
  · have hge : 20 ≤ L.length := le_of_not_lt hn
    have hlen : (lastN 20 L).length = 20 := by
      simp only [lastN, List.length_drop]
      omega
    rw [if_pos (by simp [hlen])]
    have hd1 : (lastN 20 L ++ [x]).tail = (lastN 20 L ++ [x]).drop 1 := by
      rw [List.drop_one]
    rw [hd1, List.drop_append_of_le_length (by omega)]
    simp only [lastN, List.drop_drop, List.length_append, List.length_cons,
      List.length_nil]
    rw [List.drop_append_of_le_length (by omega)]
    congr 2
    omega

/-- The window update a single sampler firing performs. -/
theorem sampleTimerFire_timeSamples (s : BarState) :
    (sampleTimerFire s).timeSamples =
      (if (s.timeSamples ++ [s.sample]).length > 20
       then (s.timeSamples ++ [s.sample]).tail
       else s.timeSamples ++ [s.sample]) := rfl

/-- The window after a run of sampler firings is exactly the last 20
tallies, the running tally is reset, and the rate is the floored scaled
mean of the current window. -/
theorem runSampler_window (tallies : List ℕ) (s : BarState)
    (h0 : s.timeSamples = []) (hs : s.sample = 0) :
    (runSampler s tallies).timeSamples = lastN 20 (intsOf tallies) ∧
    (runSampler s tallies).sample = 0 ∧
    (tallies ≠ [] → (runSampler s tallies).ops10 =
      ⌊(((runSampler s tallies).timeSamples.sum : ℚ)
        / ((runSampler s tallies).timeSamples.length : ℚ)) * 10⌋) := by
  induction tallies using List.reverseRecOn with
  | nil =>
    refine ⟨?_, hs, fun h => absurd rfl h⟩
    simp [runSampler, h0, lastN, intsOf]
  | append_singleton l x ih =>
    have hfold : runSampler s (l ++ [x])
        = sampleTimerFire { runSampler s l with
            sample := (runSampler s l).sample + (x : ℤ) } := by
      simp [runSampler, List.foldl_append]
    obtain ⟨hw, hsamp, _⟩ := ih
    have hts : ({ runSampler s l with
        sample := (runSampler s l).sample + (x : ℤ) } : BarState).timeSamples
        = lastN 20 (intsOf l) := hw
    have hsm : ({ runSampler s l with
        sample := (runSampler s l).sample + (x : ℤ) } : BarState).sample
        = (x : ℤ) := by simp [hsamp]
    refine ⟨?_, ?_, fun _ => ?_⟩
    · rw [hfold, sampleTimerFire_timeSamples, hts, hsm]
      rw [show intsOf (l ++ [x]) = intsOf l ++ [(x : ℤ)] by simp [intsOf]]
      exact lastN_step (intsOf l) (x : ℤ)
    · rw [hfold]; rfl
    · rw [hfold]
      rfl

/-- C8: after any nonempty run of sampler firings on a fresh bar, the
window holds exactly the most recent (at most 20) tallies — the oldest is
evicted on overflow — its length never exceeds 20, the running tally is
reset to zero, and the smoothed rate equals `floor(mean * 10) / 10`,
truncated toward zero (it never exceeds the true mean of the window). -/
theorem c8_sampler (tallies : List ℕ) (s : BarState)
    (h0 : s.timeSamples = []) (hs : s.sample = 0) (hne : tallies ≠ []) :
    (runSampler s tallies).timeSamples = lastN 20 (intsOf tallies) ∧
    (runSampler s tallies).timeSamples.length ≤ 20 ∧
    (runSampler s tallies).sample = 0 ∧
    (((runSampler s tallies).ops10 : ℚ) / 10 =
      ⌊(((runSampler s tallies).timeSamples.sum : ℚ)
        / ((runSampler s tallies).timeSamples.length : ℚ)) * 10⌋ / 10) ∧
    (((runSampler s tallies).ops10 : ℚ) / 10 ≤
      ((runSampler s tallies).timeSamples.sum : ℚ)
        / ((runSampler s tallies).timeSamples.length : ℚ)) := by
  obtain ⟨hw, hsamp, hops⟩ := runSampler_window tallies s h0 hs
  have hopsEq := hops hne
  refine ⟨hw, ?_, hsamp, ?_, ?_⟩
  · rw [hw]
    simp only [lastN, List.length_drop]
    omega
  · rw [hopsEq]
  · rw [hopsEq]
    have hfl : (((⌊(((runSampler s tallies).timeSamples.sum : ℚ)
        / ((runSampler s tallies).timeSamples.length : ℚ)) * 10⌋ : ℤ) : ℚ))
        ≤ (((runSampler s tallies).timeSamples.sum : ℚ)
          / ((runSampler s tallies).timeSamples.length : ℚ)) * 10 :=
      Int.floor_le _
    rw [div_le_iff₀ (by norm_num : (0:ℚ) < 10)]
    exact hfl

/-- `doRender` touches neither `writeLimit` nor the outstanding-timer
list. -/
theorem doRender_timer (env : Env) (now : ℚ) (s : BarState) (g : Globals) :
    (doRender env now s g).bar.writeLimit = s.writeLimit ∧
    (doRender env now s g).globs.outstanding = g.outstanding := by
  simp only [doRender]
  split
  · exact ⟨rfl, rfl⟩
  · split <;> split <;> exact ⟨rfl, rfl⟩

/-- `render` preserves the debounce invariant. -/
theorem render_DI (env : Env) (now : ℚ) (s : BarState) (g : Globals)
    (h : DI s g) : DI (render env now s g).bar (render env now s g).globs := by
  simp only [render]
  split
  · refine ⟨?_, ?_⟩
    · show (doRender env now { s with sampleTimerActive := false } g).globs.outstanding.length ≤ 1
      rw [(doRender_timer env now _ g).2]
      exact h.1
    · show (doRender env now { s with sampleTimerActive := false } g).bar.writeLimit.isSome = true
        ↔ (doRender env now { s with sampleTimerActive := false } g).globs.outstanding ≠ []
      rw [(doRender_timer env now _ g).1, (doRender_timer env now _ g).2]
      exact h.2
  · split
    · refine ⟨?_, ?_⟩
      · rw [(doRender_timer env now s g).2]
        exact h.1
      · rw [(doRender_timer env now s g).1, (doRender_timer env now s g).2]
        exact h.2
    · split
      · exact h
      · next hns =>
        have hout : g.outstanding = [] := by
          by_contra hne
          exact hns (h.2.mpr hne)
        refine ⟨?_, ?_⟩
        · show (g.outstanding ++ [g.nextTimer]).length ≤ 1
          rw [hout]
          rfl
        · show (some g.nextTimer).isSome = true ↔ g.outstanding ++ [g.nextTimer] ≠ []
          rw [hout]
          simp

/-- `tick` preserves the debounce invariant. -/
theorem tick_DI (env : Env) (now : ℚ) (s : BarState) (g : Globals)
    (d : Option ℤ) (h : DI s g) :
    DI (tick env now s g d).bar (tick env now s g d).globs := by
  simp only [tick]
  split
  · exact h
  · exact render_DI env now _ g h

/-- `fireDebounce` preserves the debounce invariant. -/
theorem fire_DI (env : Env) (now : ℚ) (s : BarState) (g : Globals)
    (h : DI s g) :
    DI (fireDebounce env now s g).bar (fireDebounce env now s g).globs := by
  rcases hout : g.outstanding with _ | ⟨x, rest⟩
  · have heq : fireDebounce env now s g = ⟨s, g, []⟩ := by
      simp only [fireDebounce, hout]
    rw [heq]
    exact h
  · have hlen : (x :: rest).length ≤ 1 := by rw [← hout]; exact h.1
    have hr : rest = [] := by
      simp only [List.length_cons] at hlen
      exact List.length_eq_zero.mp (by omega)
    simp only [fireDebounce, hout]
    refine ⟨?_, ?_⟩
    · show ({ (doRender env now s g).globs with outstanding := rest } : Globals).outstanding.length ≤ 1
      rw [hr]
      simp
    · show (none : Option ℕ).isSome = true ↔ ({ (doRender env now s g).globs with outstanding := rest } : Globals).outstanding ≠ []
      rw [hr]
      simp

/-- Every step of the trace machine preserves the debounce invariant. -/
theorem stepAct_DI (env : Env) (r : Run) (a : Act) (h : DI r.bar r.globs) :
    DI (stepAct env r a).bar (stepAct env r a).globs := by
  cases a with
  | tickAct d now => exact tick_DI env now r.bar r.globs d h
  | renderAct now => exact render_DI env now r.bar r.globs h
  | fireAct now => exact fire_DI env now r.bar r.globs h
  | sampleAct => exact h

/-- Trace induction: the debounce invariant holds along every trace. -/
theorem runActs_DI (env : Env) (acts : List Act) :
    ∀ r : Run, DI r.bar r.globs →
      DI (runActs env r acts).bar (runActs env r acts).globs := by
  induction acts with
  | nil => intro r h; exact h
  | cons a acts ih =>
    intro r h
    exact ih (stepAct env r a) (stepAct_DI env r a h)

/-- C7: starting from a bar with no scheduled debounce timer, every trace
of ticks, renders, debounce firings and sampler firings keeps at most one
debounce timer outstanding; a render request arriving while a timer is
outstanding is dropped outright (the whole call is a no-op — nothing is
queued); and when the scheduled timer fires it runs `doRender` against the
instance state as it is at fire time. -/
theorem c7_debounce (env : Env) (acts : List Act) (s : BarState)
    (g : Globals) (h1 : s.writeLimit = none) (h2 : g.outstanding = []) :
    ((runActs env ⟨s, g, []⟩ acts).globs.outstanding.length ≤ 1) ∧
    (∀ (now : ℚ) (s' : BarState) (g' : Globals),
      s'.curr ≠ s'.total → s'.debounceLimit ≠ none →
      s'.writeLimit.isSome = true → render env now s' g' = ⟨s', g', []⟩) ∧
    (∀ (now : ℚ) (s' : BarState) (g' : Globals), g'.outstanding ≠ [] →
      (fireDebounce env now s' g').events = (doRender env now s' g').events) := by
  refine ⟨?_, ?_, ?_⟩
  · have hDI : DI s g := ⟨by rw [h2]; exact Nat.zero_le 1,
      by rw [h1, h2]; simp⟩
    exact (runActs_DI env acts ⟨s, g, []⟩ hDI).1
  · intro now s' g' hne hdb hws
    simp only [render, if_neg hne]
    rw [if_neg hdb, if_pos hws]
  · intro now s' g' hne
    rcases hout : g'.outstanding with _ | ⟨x, rest⟩
    · exact absurd hout hne
    · simp only [fireDebounce, hout]

/-- `Math.round` of a nonnegative value is nonnegative. -/
theorem jsRound_nonneg (q : ℚ) (h : 0 ≤ q) : 0 ≤ jsRound q := by
  unfold jsRound
  rw [Int.le_floor]
  push_cast
  linarith

/-- `Math.round q ≤ w` whenever `q ≤ w` for an integer bound `w`. -/
theorem jsRound_le_nat (w : ℕ) (q : ℚ) (h : q ≤ (w : ℚ)) :
    jsRound q ≤ (w : ℤ) := by
  unfold jsRound
  rw [Int.floor_le_iff]
  push_cast
  linarith

/-- The `Array(...).join`/`slice`/`+ head` construction of the source
builds exactly the bar the specification describes: `cl` complete glyphs
with the head replacing the last one when `cl > 0`, then `w - cl`
incomplete glyphs — `w` glyphs in total, with `cl ≤ w`. -/
theorem buildBar_eq_specBar (ch : Chars) (w : ℕ) (r : ℚ) (h0 : 0 ≤ r)
    (h1 : r ≤ 1) :
    buildBar ch w r = specBar ch w (jsRound ((w : ℚ) * r)).toNat ∧
    (specBar ch w (jsRound ((w : ℚ) * r)).toNat).length = w ∧
    (jsRound ((w : ℚ) * r)).toNat ≤ w := by
  have hc0 : 0 ≤ jsRound ((w : ℚ) * r) :=
    jsRound_nonneg _ (mul_nonneg (by positivity) h0)
  have hcw : jsRound ((w : ℚ) * r) ≤ (w : ℤ) :=
    jsRound_le_nat w _ (by
      calc (w : ℚ) * r ≤ (w : ℚ) * 1 := by
            exact mul_le_mul_of_nonneg_left h1 (by positivity)
        _ = (w : ℚ) := mul_one _)
  refine ⟨?_, ?_, by omega⟩
  · simp only [buildBar, specBar]
    by_cases hz : 0 < jsRound ((w : ℚ) * r)
    · rw [if_pos hz, if_neg (by omega : ¬ (jsRound ((w : ℚ) * r)).toNat = 0)]
      have hrw : (jsRound ((w : ℚ) * r)).toNat
          = ((jsRound ((w : ℚ) * r)).toNat - 1) + 1 := by omega
      rw [hrw, List.replicate_succ', List.dropLast_concat]
      have hinc : ((w : ℤ) - jsRound ((w : ℚ) * r)).toNat
          = w - (((jsRound ((w : ℚ) * r)).toNat - 1) + 1) := by omega
      rw [hinc]
      simp [Nat.add_sub_cancel]
    · have hzero : jsRound ((w : ℚ) * r) = 0 := by omega
      rw [if_neg hz, if_pos (by omega : (jsRound ((w : ℚ) * r)).toNat = 0)]
      rw [hzero]
      simp
  · simp only [specBar]
    by_cases hz : (jsRound ((w : ℚ) * r)).toNat = 0
    · rw [if_pos hz]
      simp only [List.nil_append, List.length_replicate]
      omega
    · rw [if_neg hz]
      simp only [List.length_append, List.length_replicate,
        List.length_cons, List.length_nil]
      omega

/-- C4, amended (the win32 branch falsifies the claim's width formula,
see the counterexample): on a non-win32 platform, the string `doFormat`
returns is the
token-substituted template with the first `:bar` replaced by a bar of
exactly `completeLength = round(width * ratio)` complete glyphs (the last
of them replaced by the head glyph when `completeLength > 0`) followed by
`width - completeLength` incomplete glyphs, where
`width = min(configuredWidth, max(0, columns - |substituted template
without :bar|))` and `ratio = curr/total` clamped into `[0, 1]`; the bar's
glyph count equals that width (never negative, never above the minimum). -/
theorem c4_bar_geometry (cols : ℕ) (now : ℚ) (s : BarState) (format : Str) :
    (doFormat ⟨cols, false⟩ now s format).1
      = jsReplace (substTokens s now format) (ofStr ":bar")
          (specBar s.chars
            (min s.width ((cols : ℤ) - ((jsReplace (substTokens s now format)
              (ofStr ":bar") []).length : ℤ)).toNat)
            (jsRound (((min s.width ((cols : ℤ) -
              ((jsReplace (substTokens s now format)
                (ofStr ":bar") []).length : ℤ)).toNat : ℕ) : ℚ)
              * min (max ((s.curr : ℚ) / (s.total : ℚ)) 0) 1)).toNat) ∧
    (specBar s.chars
        (min s.width ((cols : ℤ) - ((jsReplace (substTokens s now format)
          (ofStr ":bar") []).length : ℤ)).toNat)
        (jsRound (((min s.width ((cols : ℤ) -
          ((jsReplace (substTokens s now format)
            (ofStr ":bar") []).length : ℤ)).toNat : ℕ) : ℚ)
          * min (max ((s.curr : ℚ) / (s.total : ℚ)) 0) 1)).toNat).length
      = min s.width ((cols : ℤ) - ((jsReplace (substTokens s now format)
          (ofStr ":bar") []).length : ℤ)).toNat := by
  have h0 : (0 : ℚ) ≤ min (max ((s.curr : ℚ) / (s.total : ℚ)) 0) 1 :=
    le_min (le_max_right _ 0) zero_le_one
  have h1 : min (max ((s.curr : ℚ) / (s.total : ℚ)) 0) 1 ≤ 1 :=
    min_le_right _ _
  have hbw : barWidth s ⟨cols, false⟩ (substTokens s now format)
      = min s.width ((cols : ℤ) - ((jsReplace (substTokens s now format)
          (ofStr ":bar") []).length : ℤ)).toNat := by
    simp [barWidth]
  obtain ⟨hb, hlen, _⟩ := buildBar_eq_specBar s.chars
    (min s.width ((cols : ℤ) - ((jsReplace (substTokens s now format)
      (ofStr ":bar") []).length : ℤ)).toNat)
    (min (max ((s.curr : ℚ) / (s.total : ℚ)) 0) 1) h0 h1
  refine ⟨?_, hlen⟩
  show jsReplace (substTokens s now format) (ofStr ":bar")
      (buildBar s.chars (barWidth s ⟨cols, false⟩ (substTokens s now format))
        (min (max ((s.curr : ℚ) / (s.total : ℚ)) 0) 1)) = _
  rw [hbw, hb]

/-- `leadsWith` is the prefix relation. -/
theorem leadsWith_iff (p : Str) : ∀ s : Str,
    leadsWith p s = true ↔ ∃ z, s = p ++ z := by
  induction p with
  | nil =>
    intro s
    simp [leadsWith]
  | cons a as ih =>
    intro s
    cases s with
    | nil =>
      simp [leadsWith]
    | cons b bs =>
      simp only [leadsWith, Bool.and_eq_true, decide_eq_true_eq, ih,
        List.cons_append, List.cons.injEq]
      constructor
      · rintro ⟨hab, z, hz⟩
        exact ⟨z, hab.symm, hz⟩
      · rintro ⟨z, hab, hz⟩
        exact ⟨hab.symm, z, hz⟩

/-- `String.replace` is the identity when the pattern does not occur. -/
theorem jsReplace_no_occur {p : Str} (v : Str) : ∀ {s : Str},
    ¬ occursIn p s → jsReplace s p v = s := by
  intro s
  induction s with
  | nil =>
    intro h
    have hp : p ≠ [] := fun he => h ⟨[], [], by simp [he]⟩
    have hlw : ¬ (leadsWith p [] = true) := by
      cases p with
      | nil => exact absurd rfl hp
      | cons a as => simp [leadsWith]
    simp only [jsReplace]
    rw [if_neg hlw]
  | cons c rest ih =>
    intro h
    have hlw : ¬ (leadsWith p (c :: rest) = true) := by
      intro hl
      obtain ⟨z, hz⟩ := (leadsWith_iff p (c :: rest)).mp hl
      exact h ⟨[], z, by simp [hz]⟩
    have hrest : ¬ occursIn p rest := by
      rintro ⟨a, b, he⟩
      exact h ⟨c :: a, b, by simp [he]⟩
    simp only [jsReplace]
    rw [if_neg hlw, ih hrest]

/-- An occurrence cannot start inside a colon-free left part. -/
theorem occursIn_strip {p p' : Str} (hp : p = ':' :: p') :
    ∀ {u s : Str}, ':' ∉ u → occursIn p (u ++ s) → occursIn p s := by
  intro u
  induction u with
  | nil =>
    intro s _ h
    simpa using h
  | cons c u' ih =>
    intro s hu h
    obtain ⟨a, b, he⟩ := h
    cases a with
    | nil =>
      rw [hp] at he
      simp only [List.nil_append, List.cons_append, List.cons.injEq] at he
      exact absurd (by rw [← he.1]; exact List.mem_cons_self c u') hu
    | cons d a' =>
      simp only [List.cons_append, List.cons.injEq] at he
      have hu' : ':' ∉ u' := fun hm => hu (List.mem_cons_of_mem c hm)
      exact ih hu' ⟨a', b, by rw [he.2]⟩

/-- An occurrence inside a token block either starts at the block's
leading colon or lies behind the block. -/
theorem occursIn_block {p p' t' : Str} (hp : p = ':' :: p')
    (ht' : ':' ∉ t') {s : Str} :
    occursIn p ((':' :: t') ++ s) → (∃ z, (':' :: t') ++ s = p ++ z) ∨
      occursIn p s := by
  rintro ⟨a, b, he⟩
  cases a with
  | nil =>
    exact Or.inl ⟨b, by simpa using he⟩
  | cons d a' =>
    simp only [List.cons_append, List.cons.injEq] at he
    exact Or.inr (occursIn_strip hp ht' ⟨a', b, by rw [he.2]⟩)

/-- A colon-leading pattern cannot occur in a colon-free string. -/
theorem no_occursIn_colonFree {p p' : Str} (hp : p = ':' :: p')
    {s : Str} (hs : ':' ∉ s) : ¬ occursIn p s := by
  rintro ⟨a, b, he⟩
  apply hs
  rw [he, hp]
  simp

/-- A prefix of `t ++ w` is comparable with `t`. -/
theorem pref_of_append {t w p z : Str} (h : t ++ w = p ++ z) :
    (∃ k, t = p ++ k) ∨ (∃ k, p = t ++ k) := by
  rcases List.append_eq_append_iff.mp h with ⟨a', ha1, _⟩ | ⟨c', hc1, _⟩
  · exact Or.inr ⟨a', ha1⟩
  · exact Or.inl ⟨c', hc1⟩

/-- Every recognized token starts with a colon and has no further colon. -/
theorem tokens_shape : ∀ q ∈ tokenList,
    q.head? = some ':' ∧ ':' ∉ q.tail := by decide

/-- Existential form of `tokens_shape`. -/
theorem tokens_colon {q : Str} (hq : q ∈ tokenList) :
    ∃ q', q = ':' :: q' ∧ ':' ∉ q' := by
  obtain ⟨h1, h2⟩ := tokens_shape q hq
  cases q with
  | nil => simp at h1
  | cons c q' =>
    simp only [List.head?] at h1
    exact ⟨q', by rw [Option.some.injEq] at h1; rw [h1], h2⟩

/-- Distinct recognized tokens are never prefixes of one another. -/
theorem tokens_nf : ∀ a ∈ tokenList, ∀ b ∈ tokenList, a ≠ b →
    leadsWith a b = false ∧ leadsWith b a = false := by decide

/-- A distinct token can therefore not match at a token boundary. -/
theorem tokens_no_pref {q tok : Str} (hq : q ∈ tokenList)
    (ht : tok ∈ tokenList) (hne : q ≠ tok) (z0 : Str) :
    ¬ ∃ zz, tok ++ z0 = q ++ zz := by
  rintro ⟨zz, hz⟩
  rcases pref_of_append hz with ⟨k, hk⟩ | ⟨k, hk⟩
  · have hl : leadsWith q tok = true := (leadsWith_iff q tok).mpr ⟨k, hk⟩
    rw [(tokens_nf q hq tok ht hne).1] at hl
    exact Bool.false_ne_true hl
  · have hl : leadsWith tok q = true := (leadsWith_iff tok q).mpr ⟨k, hk⟩
    rw [(tokens_nf q hq tok ht hne).2] at hl
    exact Bool.false_ne_true hl

/-- No occurrence of a different recognized token exists anywhere in
`u ++ X ++ v ++ tok ++ w` when `u`, `v`, `w` are colon-free and `X` is
either colon-free or the token itself. -/
theorem sandwich_no_occur (q tok : Str) (hq : q ∈ tokenList)
    (ht : tok ∈ tokenList) (hne : q ≠ tok) (u v w X : Str)
    (hu : ':' ∉ u) (hv : ':' ∉ v) (hw : ':' ∉ w)
    (hX : ':' ∉ X ∨ X = tok) :
    ¬ occursIn q (u ++ (X ++ (v ++ (tok ++ w)))) := by
  obtain ⟨q', hq', _⟩ := tokens_colon hq
  obtain ⟨t', ht', ht'c⟩ := tokens_colon ht
  intro hocc
  have h1 : occursIn q (X ++ (v ++ (tok ++ w))) := occursIn_strip hq' hu hocc
  have htail : occursIn q (tok ++ w) → False := by
    intro h3
    have h3' : occursIn q ((':' :: t') ++ w) := by rw [← ht']; exact h3
    rcases occursIn_block hq' ht'c h3' with ⟨z, hz⟩ | h4
    · exact tokens_no_pref hq ht hne w ⟨z, by rw [ht']; exact hz⟩
    · exact no_occursIn_colonFree hq' hw h4
  rcases hX with hXc | hXt
  · have h2 : occursIn q (v ++ (tok ++ w)) := occursIn_strip hq' hXc h1
    exact htail (occursIn_strip hq' hv h2)
  · have h1' : occursIn q ((':' :: t') ++ (v ++ (tok ++ w))) := by
      rw [← ht']
      rw [hXt] at h1
      exact h1
    rcases occursIn_block hq' ht'c h1' with ⟨z, hz⟩ | h2
    · exact tokens_no_pref hq ht hne (v ++ (tok ++ w))
        ⟨z, by nth_rewrite 1 [ht']; exact hz⟩
    · exact htail (occursIn_strip hq' hv h2)

/-- `String.replace` commutes past a colon-free left part when the pattern
starts with a colon. -/
theorem jsReplace_colon_skip {p : Str} (hp : ∃ p', p = ':' :: p')
    (v : Str) : ∀ {u : Str} (s : Str), ':' ∉ u →
    jsReplace (u ++ s) p v = u ++ jsReplace s p v := by
  intro u
  induction u with
  | nil => intro s _; rfl
  | cons c u' ih =>
    intro s hu
    obtain ⟨p', hp'⟩ := hp
    have hc : ':' ≠ c := fun he => hu (he ▸ List.mem_cons_self c u')
    have hlw : leadsWith p (c :: (u' ++ s)) = false := by
      rw [hp']
      simp [leadsWith, hc]
    show jsReplace (c :: (u' ++ s)) p v = c :: (u' ++ jsReplace s p v)
    simp only [jsReplace]
    rw [if_neg (by rw [hlw]; exact Bool.false_ne_true)]
    rw [ih s (fun hm => hu (List.mem_cons_of_mem c hm))]

/-- `String.replace` substitutes an occurrence sitting at the front. -/
theorem jsReplace_hit {p : Str} (hp : ∃ p', p = ':' :: p') (v z : Str) :
    jsReplace (p ++ z) p v = v ++ z := by
  obtain ⟨p', hp'⟩ := hp
  subst hp'
  show jsReplace (':' :: (p' ++ z)) (':' :: p') v = v ++ z
  simp only [jsReplace]
  rw [if_pos ((leadsWith_iff _ _).mpr ⟨z, by simp⟩)]
  congr 1
  show (':' :: (p' ++ z)).drop (p'.length + 1) = z
  simp only [List.drop_succ_cons]
  rw [List.drop_left]

/-- Running stages in two groups. -/
theorem applyStages_append (l₁ l₂ : List (Str × Str)) (s : Str) :
    applyStages (l₁ ++ l₂) s = applyStages l₂ (applyStages l₁ s) := by
  simp [applyStages, List.foldl_append]

/-- Stages whose tokens differ from `tok` leave a
`u ++ X ++ v ++ tok ++ w` string untouched. -/
theorem applyStages_skip (tok : Str) (ht : tok ∈ tokenList)
    (u v w X : Str) (hu : ':' ∉ u) (hv : ':' ∉ v) (hw : ':' ∉ w)
    (hX : ':' ∉ X ∨ X = tok) :
    ∀ stages : List (Str × Str),
      (∀ q ∈ stages.map Prod.fst, q ∈ tokenList ∧ q ≠ tok) →
      applyStages stages (u ++ (X ++ (v ++ (tok ++ w))))
        = u ++ (X ++ (v ++ (tok ++ w))) := by
  intro stages
  induction stages with
  | nil => intro _; rfl
  | cons pv rest ih =>
    intro hst
    have hq := hst pv.1 (by simp)
    have hno : ¬ occursIn pv.1 (u ++ (X ++ (v ++ (tok ++ w)))) :=
      sandwich_no_occur pv.1 tok hq.1 ht hq.2 u v w X hu hv hw hX
    show applyStages rest (jsReplace _ pv.1 pv.2) = _
    rw [jsReplace_no_occur pv.2 hno]
    exact ih fun q hq' =>
      hst q (by rw [List.map_cons]; exact List.mem_cons_of_mem _ hq')

/-- Running the full stage chain on a template containing a token twice:
the stages before and after the token's own stage are inert, the token's
stage replaces only the first occurrence. -/
theorem chain_sub (tok valT : Str) (htok : tok ∈ tokenList)
    (u v w : Str) (hu : ':' ∉ u) (hv : ':' ∉ v) (hw : ':' ∉ w)
    (hval : ':' ∉ valT) (pre post : List (Str × Str))
    (hpre : ∀ q ∈ pre.map Prod.fst, q ∈ tokenList ∧ q ≠ tok)
    (hpost : ∀ q ∈ post.map Prod.fst, q ∈ tokenList ∧ q ≠ tok) :
    applyStages (pre ++ (tok, valT) :: post)
        (u ++ (tok ++ (v ++ (tok ++ w))))
      = u ++ (valT ++ (v ++ (tok ++ w))) := by
  obtain ⟨t', ht', _⟩ := tokens_colon htok
  rw [applyStages_append]
  rw [applyStages_skip tok htok u v w tok hu hv hw (Or.inr rfl) pre hpre]
  show applyStages post (jsReplace (u ++ (tok ++ (v ++ (tok ++ w)))) tok valT)
      = _
  rw [jsReplace_colon_skip ⟨t', ht'⟩ valT _ hu, jsReplace_hit ⟨t', ht'⟩]
  exact applyStages_skip tok htok u v w valT hu hv hw (Or.inl hval) post hpost

/-- Digit characters are never a colon. -/
theorem colon_not_digit : ∀ d, d < 10 → digitChar d ≠ ':' := by decide

/-- `natToCharsAux` renders only digit characters. -/
theorem colon_not_natAux : ∀ fuel n, ':' ∉ natToCharsAux fuel n := by
  intro fuel
  induction fuel with
  | zero => intro n; simp [natToCharsAux]
  | succ f ih =>
    intro n
    cases n with
    | zero => simp [natToCharsAux]
    | succ m =>
      intro hmem
      rcases List.mem_append.mp hmem with h | h
      · exact ih _ h
      · rw [List.mem_singleton] at h
        exact colon_not_digit _ (Nat.mod_lt _ (by norm_num)) h.symm

theorem colon_not_natToChars (n : ℕ) : ':' ∉ natToChars n := by
  unfold natToChars
  split
  · decide
  · exact colon_not_natAux _ _

theorem colon_not_intToStr (i : ℤ) : ':' ∉ intToStr i := by
  unfold intToStr
  split
  · intro hmem
    rcases List.mem_cons.mp hmem with h | h
    · exact absurd h (by decide)
    · exact colon_not_natToChars _ h
  · exact colon_not_natToChars _

theorem colon_not_append {a b : Str} (ha : ':' ∉ a) (hb : ':' ∉ b) :
    ':' ∉ a ++ b :=
  fun h => (List.mem_append.mp h).elim ha hb

theorem colon_not_numToChars (x : JSNum) : ':' ∉ x.toChars := by
  cases x with
  | num q => exact colon_not_intToStr _
  | nan => decide
  | posInf => decide
  | negInf => decide

theorem colon_not_secondsToMin (x : JSNum) : ':' ∉ secondsToMin x := by
  simp only [secondsToMin]
  refine colon_not_append (colon_not_append (colon_not_append
    (colon_not_append ?_ (colon_not_numToChars _)) (by decide))
    (colon_not_numToChars _)) (by decide)
  split
  · exact colon_not_append (colon_not_numToChars _) (by decide)
  · decide

theorem colon_not_elapsedStr (s : BarState) (now : ℚ) :
    ':' ∉ elapsedStr s now :=
  colon_not_secondsToMin _

theorem colon_not_timeRemainingStr (s : BarState) :
    ':' ∉ timeRemainingStr s :=
  colon_not_secondsToMin _

theorem colon_not_opsToChars (k : ℤ) : ':' ∉ opsToChars k := by
  unfold opsToChars
  have hrender : ∀ m : ℕ, ':' ∉ (if m % 10 = 0 then natToChars (m / 10)
      else natToChars (m / 10) ++ ['.', digitChar (m % 10)]) := by
    intro m
    split
    · exact colon_not_natToChars _
    · apply colon_not_append (colon_not_natToChars _)
      intro hmem
      rcases List.mem_cons.mp hmem with h | h
      · exact absurd h (by decide)
      · rw [List.mem_singleton] at h
        exact colon_not_digit _ (Nat.mod_lt _ (by norm_num)) h.symm
  split
  · intro hmem
    rcases List.mem_cons.mp hmem with h | h
    · exact absurd h (by decide)
    · exact hrender _ h
  · exact hrender _

/-- `substTokens` is the stage-chain fold. -/
theorem substTokens_eq_stages (s : BarState) (now : ℚ) (format : Str) :
    substTokens s now format = applyStages (stageList s now) format := rfl

/-- The string component of `doFormat`, spelled out. -/
theorem doFormat_str (env : Env) (now : ℚ) (s : BarState) (format : Str) :
    (doFormat env now s format).1
      = jsReplace (substTokens s now format) (ofStr ":bar")
          (buildBar s.chars (barWidth s env (substTokens s now format))
            (min (max ((s.curr : ℚ) / (s.total : ℚ)) 0) 1)) := rfl

/-- One token's case of the first-occurrence-only theorem: splitting the
stage chain around the token's own stage. -/
theorem c10_case (env : Env) (now : ℚ) (s : BarState) (tok valT : Str)
    (u v w : Str) (hu : ':' ∉ u) (hv : ':' ∉ v) (hw : ':' ∉ w)
    (pre post : List (Str × Str))
    (htok : tok ∈ tokenList)
    (hbar : ofStr ":bar" ≠ tok)
    (hstage : stageList s now = pre ++ (tok, valT) :: post)
    (hval : ':' ∉ valT)
    (hpre : ∀ q ∈ pre.map Prod.fst, q ∈ tokenList ∧ q ≠ tok)
    (hpost : ∀ q ∈ post.map Prod.fst, q ∈ tokenList ∧ q ≠ tok) :
    ∃ repl, (doFormat env now s (u ++ (tok ++ (v ++ (tok ++ w))))).1
      = u ++ (repl ++ (v ++ (tok ++ w))) := by
  have hsub : substTokens s now (u ++ (tok ++ (v ++ (tok ++ w))))
      = u ++ (valT ++ (v ++ (tok ++ w))) := by
    rw [substTokens_eq_stages, hstage]
    exact chain_sub tok valT htok u v w hu hv hw hval pre post hpre hpost
  have hno : ¬ occursIn (ofStr ":bar") (u ++ (valT ++ (v ++ (tok ++ w)))) :=
    sandwich_no_occur (ofStr ":bar") tok (by decide) htok hbar u v w valT
      hu hv hw (Or.inl hval)
  refine ⟨valT, ?_⟩
  rw [doFormat_str, hsub, jsReplace_no_occur _ hno]

/-- C10: `doFormat` substitutes only the first occurrence of each
recognized token.  Formalized over templates `u ++ t ++ v ++ t ++ w` that
contain the recognized token `t` twice, with colon-free context strings
`u`, `v`, `w` (so the two `t`s are the only token occurrences): the second
occurrence is left verbatim in the output — the result is the template
with just the first `t` replaced. -/
theorem c10_first_occurrence_only (t : Str) (ht : t ∈ tokenList)
    (u v w : Str) (hu : ':' ∉ u) (hv : ':' ∉ v) (hw : ':' ∉ w)
    (env : Env) (now : ℚ) (s : BarState) :
    ∃ repl, (doFormat env now s (u ++ (t ++ (v ++ (t ++ w))))).1
      = u ++ (repl ++ (v ++ (t ++ w))) := by
  have hmem : t = ofStr ":c[blue]" ∨ t = ofStr ":c[white]" ∨
      t = ofStr ":c[yellow]" ∨ t = ofStr ":c[red]" ∨ t = ofStr ":c[none]" ∨
      t = ofStr ":nl" ∨ t = ofStr ":current" ∨ t = ofStr ":total" ∨
      t = ofStr ":elapsed" ∨ t = ofStr ":eta" ∨ t = ofStr ":percent" ∨
      t = ofStr ":opsec" ∨ t = ofStr ":bar" := by
    simpa [tokenList] using ht
  rcases hmem with rfl | rfl | rfl | rfl | rfl | rfl | rfl | rfl | rfl | rfl | rfl | rfl | rfl
  · have hp : ∀ q ∈ ([] : List Str), q ∈ tokenList ∧ q ≠ ofStr ":c[blue]" := by
      decide
    have hq : ∀ q ∈ [ofStr ":c[white]", ofStr ":c[yellow]", ofStr ":c[red]", ofStr ":c[none]", ofStr ":nl", ofStr ":current", ofStr ":total", ofStr ":elapsed", ofStr ":eta", ofStr ":percent", ofStr ":opsec"], q ∈ tokenList ∧ q ≠ ofStr ":c[blue]" := by
      decide
    exact c10_case env now s _ (ofStr "\x1b[1;34m") u v w hu hv hw
      ((stageList s now).take 0) ((stageList s now).drop 1)
      (by decide) (by decide) rfl (by decide)
      (fun q hm => hp q hm) (fun q hm => hq q hm)
  · have hp : ∀ q ∈ [ofStr ":c[blue]"], q ∈ tokenList ∧ q ≠ ofStr ":c[white]" := by
      decide
    have hq : ∀ q ∈ [ofStr ":c[yellow]", ofStr ":c[red]", ofStr ":c[none]", ofStr ":nl", ofStr ":current", ofStr ":total", ofStr ":elapsed", ofStr ":eta", ofStr ":percent", ofStr ":opsec"], q ∈ tokenList ∧ q ≠ ofStr ":c[white]" := by
      decide
    exact c10_case env now s _ (ofStr "\x1b[1;37m") u v w hu hv hw
      ((stageList s now).take 1) ((stageList s now).drop 2)
      (by decide) (by decide) rfl (by decide)
      (fun q hm => hp q hm) (fun q hm => hq q hm)
  · have hp : ∀ q ∈ [ofStr ":c[blue]", ofStr ":c[white]"], q ∈ tokenList ∧ q ≠ ofStr ":c[yellow]" := by
      decide
    have hq : ∀ q ∈ [ofStr ":c[red]", ofStr ":c[none]", ofStr ":nl", ofStr ":current", ofStr ":total", ofStr ":elapsed", ofStr ":eta", ofStr ":percent", ofStr ":opsec"], q ∈ tokenList ∧ q ≠ ofStr ":c[yellow]" := by
      decide
    exact c10_case env now s _ (ofStr "\x1b[1;33m") u v w hu hv hw
      ((stageList s now).take 2) ((stageList s now).drop 3)
      (by decide) (by decide) rfl (by decide)
      (fun q hm => hp q hm) (fun q hm => hq q hm)
  · have hp : ∀ q ∈ [ofStr ":c[blue]", ofStr ":c[white]", ofStr ":c[yellow]"], q ∈ tokenList ∧ q ≠ ofStr ":c[red]" := by
      decide
    have hq : ∀ q ∈ [ofStr ":c[none]", ofStr ":nl", ofStr ":current", ofStr ":total", ofStr ":elapsed", ofStr ":eta", ofStr ":percent", ofStr ":opsec"], q ∈ tokenList ∧ q ≠ ofStr ":c[red]" := by
      decide
    exact c10_case env now s _ (ofStr "\x1b[1;31m") u v w hu hv hw
      ((stageList s now).take 3) ((stageList s now).drop 4)
      (by decide) (by decide) rfl (by decide)
      (fun q hm => hp q hm) (fun q hm => hq q hm)
  · have hp : ∀ q ∈ [ofStr ":c[blue]", ofStr ":c[white]", ofStr ":c[yellow]", ofStr ":c[red]"], q ∈ tokenList ∧ q ≠ ofStr ":c[none]" := by
      decide
    have hq : ∀ q ∈ [ofStr ":nl", ofStr ":current", ofStr ":total", ofStr ":elapsed", ofStr ":eta", ofStr ":percent", ofStr ":opsec"], q ∈ tokenList ∧ q ≠ ofStr ":c[none]" := by
      decide
    exact c10_case env now s _ (ofStr "\x1b[0m") u v w hu hv hw
      ((stageList s now).take 4) ((stageList s now).drop 5)
      (by decide) (by decide) rfl (by decide)
      (fun q hm => hp q hm) (fun q hm => hq q hm)
  · have hp : ∀ q ∈ [ofStr ":c[blue]", ofStr ":c[white]", ofStr ":c[yellow]", ofStr ":c[red]", ofStr ":c[none]"], q ∈ tokenList ∧ q ≠ ofStr ":nl" := by
      decide
    have hq : ∀ q ∈ [ofStr ":current", ofStr ":total", ofStr ":elapsed", ofStr ":eta", ofStr ":percent", ofStr ":opsec"], q ∈ tokenList ∧ q ≠ ofStr ":nl" := by
      decide
    exact c10_case env now s _ (newLineStr) u v w hu hv hw
      ((stageList s now).take 5) ((stageList s now).drop 6)
      (by decide) (by decide) rfl (by decide)
      (fun q hm => hp q hm) (fun q hm => hq q hm)
  · have hp : ∀ q ∈ [ofStr ":c[blue]", ofStr ":c[white]", ofStr ":c[yellow]", ofStr ":c[red]", ofStr ":c[none]", ofStr ":nl"], q ∈ tokenList ∧ q ≠ ofStr ":current" := by
      decide
    have hq : ∀ q ∈ [ofStr ":total", ofStr ":elapsed", ofStr ":eta", ofStr ":percent", ofStr ":opsec"], q ∈ tokenList ∧ q ≠ ofStr ":current" := by
      decide
    exact c10_case env now s _ (intToStr s.curr) u v w hu hv hw
      ((stageList s now).take 6) ((stageList s now).drop 7)
      (by decide) (by decide) rfl (colon_not_intToStr s.curr)
      (fun q hm => hp q hm) (fun q hm => hq q hm)
  · have hp : ∀ q ∈ [ofStr ":c[blue]", ofStr ":c[white]", ofStr ":c[yellow]", ofStr ":c[red]", ofStr ":c[none]", ofStr ":nl", ofStr ":current"], q ∈ tokenList ∧ q ≠ ofStr ":total" := by
      decide
    have hq : ∀ q ∈ [ofStr ":elapsed", ofStr ":eta", ofStr ":percent", ofStr ":opsec"], q ∈ tokenList ∧ q ≠ ofStr ":total" := by
      decide
    exact c10_case env now s _ (intToStr s.total) u v w hu hv hw
      ((stageList s now).take 7) ((stageList s now).drop 8)
      (by decide) (by decide) rfl (colon_not_intToStr s.total)
      (fun q hm => hp q hm) (fun q hm => hq q hm)
  · have hp : ∀ q ∈ [ofStr ":c[blue]", ofStr ":c[white]", ofStr ":c[yellow]", ofStr ":c[red]", ofStr ":c[none]", ofStr ":nl", ofStr ":current", ofStr ":total"], q ∈ tokenList ∧ q ≠ ofStr ":elapsed" := by
      decide
    have hq : ∀ q ∈ [ofStr ":eta", ofStr ":percent", ofStr ":opsec"], q ∈ tokenList ∧ q ≠ ofStr ":elapsed" := by
      decide
    exact c10_case env now s _ (elapsedStr s now) u v w hu hv hw
      ((stageList s now).take 8) ((stageList s now).drop 9)
      (by decide) (by decide) rfl (colon_not_elapsedStr s now)
      (fun q hm => hp q hm) (fun q hm => hq q hm)
  · have hp : ∀ q ∈ [ofStr ":c[blue]", ofStr ":c[white]", ofStr ":c[yellow]", ofStr ":c[red]", ofStr ":c[none]", ofStr ":nl", ofStr ":current", ofStr ":total", ofStr ":elapsed"], q ∈ tokenList ∧ q ≠ ofStr ":eta" := by
      decide
    have hq : ∀ q ∈ [ofStr ":percent", ofStr ":opsec"], q ∈ tokenList ∧ q ≠ ofStr ":eta" := by
      decide
    exact c10_case env now s _ (timeRemainingStr s) u v w hu hv hw
      ((stageList s now).take 9) ((stageList s now).drop 10)
      (by decide) (by decide) rfl (colon_not_timeRemainingStr s)
      (fun q hm => hp q hm) (fun q hm => hq q hm)
  · have hp : ∀ q ∈ [ofStr ":c[blue]", ofStr ":c[white]", ofStr ":c[yellow]", ofStr ":c[red]", ofStr ":c[none]", ofStr ":nl", ofStr ":current", ofStr ":total", ofStr ":elapsed", ofStr ":eta"], q ∈ tokenList ∧ q ≠ ofStr ":percent" := by
      decide
    have hq : ∀ q ∈ [ofStr ":opsec"], q ∈ tokenList ∧ q ≠ ofStr ":percent" := by
      decide
    exact c10_case env now s _ (intToStr (jsRound ((s.curr : ℚ) / (s.total : ℚ) * 100)) ++ ['%']) u v w hu hv hw
      ((stageList s now).take 10) ((stageList s now).drop 11)
      (by decide) (by decide) rfl (colon_not_append (colon_not_intToStr _) (by decide))
      (fun q hm => hp q hm) (fun q hm => hq q hm)
  · have hp : ∀ q ∈ [ofStr ":c[blue]", ofStr ":c[white]", ofStr ":c[yellow]", ofStr ":c[red]", ofStr ":c[none]", ofStr ":nl", ofStr ":current", ofStr ":total", ofStr ":elapsed", ofStr ":eta", ofStr ":percent"], q ∈ tokenList ∧ q ≠ ofStr ":opsec" := by
      decide
    have hq : ∀ q ∈ ([] : List Str), q ∈ tokenList ∧ q ≠ ofStr ":opsec" := by
      decide
    exact c10_case env now s _ (opsToChars s.ops10) u v w hu hv hw
      ((stageList s now).take 11) ((stageList s now).drop 12)
      (by decide) (by decide) rfl (colon_not_opsToChars s.ops10)
      (fun q hm => hp q hm) (fun q hm => hq q hm)
  · have hall : ∀ q ∈ [ofStr ":c[blue]", ofStr ":c[white]", ofStr ":c[yellow]", ofStr ":c[red]", ofStr ":c[none]", ofStr ":nl", ofStr ":current", ofStr ":total", ofStr ":elapsed", ofStr ":eta", ofStr ":percent", ofStr ":opsec"], q ∈ tokenList ∧ q ≠ ofStr ":bar" := by
      decide
    have hsub : substTokens s now
        (u ++ (ofStr ":bar" ++ (v ++ (ofStr ":bar" ++ w))))
        = u ++ (ofStr ":bar" ++ (v ++ (ofStr ":bar" ++ w))) := by
      rw [substTokens_eq_stages]
      exact applyStages_skip (ofStr ":bar") (by decide) u v w (ofStr ":bar")
        hu hv hw (Or.inr rfl) (stageList s now) (fun q hm => hall q hm)
    refine ⟨buildBar s.chars (barWidth s env (substTokens s now
      (u ++ (ofStr ":bar" ++ (v ++ (ofStr ":bar" ++ w))))))
      (min (max ((s.curr : ℚ) / (s.total : ℚ)) 0) 1), ?_⟩
    rw [doFormat_str, hsub,
      @jsReplace_colon_skip (ofStr ":bar") ⟨ofStr "bar", rfl⟩ _ _ _ hu,
      @jsReplace_hit (ofStr ":bar") ⟨ofStr "bar", rfl⟩]

/-- C4, counterexample.  The claim's width formula
`width = min(configuredWidth, max(0, columns - staticTextLength))` fails
on win32: there the source subtracts one further column from a nonzero
`availableSpace` before taking the minimum.  On a 10-column win32
terminal, a fresh bar (`configuredWidth = 40`) with the template `:bar`
renders a 9-glyph bar, while the claim's formula gives 10. -/
theorem c4_win32_counterexample :
    ((doFormat ⟨10, true⟩ 0 (demoBar 1) (ofStr ":bar")).1).length = 9 ∧
    min (demoBar 1).width ((10 : ℤ) -
      ((jsReplace (substTokens (demoBar 1) 0 (ofStr ":bar"))
        (ofStr ":bar") []).length : ℤ)).toNat = 10 := by
  refine ⟨?_, rfl⟩
  have h0 : (0 : ℚ) ≤ min (max (((demoBar 1).curr : ℚ)
      / ((demoBar 1).total : ℚ)) 0) 1 :=
    le_min (le_max_right _ 0) zero_le_one
  have h1 : min (max (((demoBar 1).curr : ℚ)
      / ((demoBar 1).total : ℚ)) 0) 1 ≤ 1 :=
    min_le_right _ _
  have hsub : substTokens (demoBar 1) 0 (ofStr ":bar") = ofStr ":bar" := rfl
  have hbw : barWidth (demoBar 1) ⟨10, true⟩ (ofStr ":bar") = 9 := rfl
  have hrep : ∀ B : Str, jsReplace (ofStr ":bar") (ofStr ":bar") B = B := by
    intro B
    have hb := @jsReplace_hit (ofStr ":bar") ⟨ofStr "bar", rfl⟩ B []
    simpa using hb
  rw [doFormat_str, hsub, hbw, hrep]
  rw [(buildBar_eq_specBar (demoBar 1).chars 9 _ h0 h1).1]
  exact (buildBar_eq_specBar (demoBar 1).chars 9 _ h0 h1).2.1

/-- Witness for C3 at `total = 5` and ticks `tick(), tick(2), tick(0)`. -/
theorem c3_ticks_accumulate_witness :
    ((mkBar { total := some 5 } Globals.init 0).2.1
        = Except.ok (demoBar 5)) ∧
    (({ total := some 5 } : Options).total = some 5) ∧
    (((([none, some 2, some 0].map deltaVal).sum : ℕ) : ℤ) < 5) ∧
    ((runTicks env80 0 (demoBar 5) (mkBar { total := some 5 } Globals.init 0).1
        ([none, some 2, some 0].map natDelta)).bar.curr
      = ((([none, some 2, some 0].map deltaVal).sum : ℕ) : ℤ) ∧
    (runTicks env80 0 (demoBar 5) (mkBar { total := some 5 } Globals.init 0).1
        ([none, some 2, some 0].map natDelta)).bar.complete = false) :=
  ⟨rfl, rfl, by decide,
   c3_ticks_accumulate env80 0 { total := some 5 } Globals.init 5 (demoBar 5)
     rfl rfl [none, some 2, some 0] (by decide)⟩

/-- Witness for C6 on a fresh (non-complete) bar. -/
theorem c6_render_suppression_witness :
    ((demoBar 10).complete = false) ∧
    ((frameOf env80 0 (demoBar 10) = (demoBar 10).lastDraw →
        (doRender env80 0 (demoBar 10) Globals.init).events = []) ∧
      ((doRender env80 0 (demoBar 10) Globals.init).events ++
        (doRender env80 0 (doRender env80 0 (demoBar 10) Globals.init).bar
          (doRender env80 0 (demoBar 10) Globals.init).globs).events).countP
            Event.isWrite ≤ 1) :=
  ⟨rfl, c6_render_suppression env80 0 (demoBar 10) Globals.init rfl⟩

/-- Witness for C7 on a tick-then-fire trace from a fresh bar. -/
theorem c7_debounce_witness :
    ((demoBar 10).writeLimit = none) ∧
    (Globals.init.outstanding = []) ∧
    (((runActs env80 ⟨demoBar 10, Globals.init, []⟩
        [Act.tickAct (some 1) 1, Act.fireAct 2]).globs.outstanding.length
          ≤ 1) ∧
    (∀ (now : ℚ) (s' : BarState) (g' : Globals),
      s'.curr ≠ s'.total → s'.debounceLimit ≠ none →
      s'.writeLimit.isSome = true →
      render env80 now s' g' = ⟨s', g', []⟩) ∧
    (∀ (now : ℚ) (s' : BarState) (g' : Globals), g'.outstanding ≠ [] →
      (fireDebounce env80 now s' g').events
        = (doRender env80 now s' g').events)) :=
  ⟨rfl, rfl, c7_debounce env80 [Act.tickAct (some 1) 1, Act.fireAct 2]
    (demoBar 10) Globals.init rfl rfl⟩

/-- Witness for C8 with tallies `[3, 4]` on a fresh bar. -/
theorem c8_sampler_witness :
    ((demoBar 10).timeSamples = []) ∧ ((demoBar 10).sample = 0) ∧
    (([3, 4] : List ℕ) ≠ []) ∧
    ((runSampler (demoBar 10) [3, 4]).timeSamples
        = lastN 20 (intsOf [3, 4]) ∧
    (runSampler (demoBar 10) [3, 4]).timeSamples.length ≤ 20 ∧
    (runSampler (demoBar 10) [3, 4]).sample = 0 ∧
    (((runSampler (demoBar 10) [3, 4]).ops10 : ℚ) / 10 =
      ⌊(((runSampler (demoBar 10) [3, 4]).timeSamples.sum : ℚ)
        / ((runSampler (demoBar 10) [3, 4]).timeSamples.length : ℚ)) * 10⌋
          / 10) ∧
    (((runSampler (demoBar 10) [3, 4]).ops10 : ℚ) / 10 ≤
      ((runSampler (demoBar 10) [3, 4]).timeSamples.sum : ℚ)
        / ((runSampler (demoBar 10) [3, 4]).timeSamples.length : ℚ))) :=
  ⟨rfl, rfl, by decide, c8_sampler [3, 4] (demoBar 10) rfl rfl (by decide)⟩

/-- Witness for C10 with the `:current` token duplicated between plain
contexts. -/
theorem c10_first_occurrence_only_witness :
    (ofStr ":current" ∈ tokenList) ∧
    (':' ∉ ofStr "a") ∧ (':' ∉ ofStr "b") ∧ (':' ∉ ofStr "c") ∧
    (∃ repl, (doFormat env80 0 (demoBar 10)
        (ofStr "a" ++ (ofStr ":current" ++ (ofStr "b" ++
          (ofStr ":current" ++ ofStr "c"))))).1
      = ofStr "a" ++ (repl ++ (ofStr "b" ++ (ofStr ":current" ++ ofStr "c")))) :=
  ⟨by decide, by decide, by decide, by decide,
   c10_first_occurrence_only (ofStr ":current") (by decide) (ofStr "a")
    (ofStr "b") (ofStr "c") (by decide) (by decide) (by decide)
    env80 0 (demoBar 10)⟩

end NodeProgress
